import Mathlib

/-!
# Invoice-tracker pipeline: shallow embedding and verification

A shallow embedding of the email ingestion / invoice-extraction pipeline of
the invoice-tracker repository, together with theorems settling the claims
about it.

Embedded components and their sources:

* the `Invoice` record and the store primitives (`prisma.invoice.create`,
  `prisma.invoice.upsert`) with the uniqueness constraints of
  `prisma/schema.prisma` (`messageId @unique` and `@@unique([accountId,
  messageId])`);
* `OpenAIService` of `src/lib/openai/service.ts`: the TTL cache,
  `analyzeWithModel` with its model-retry logic, `processBatch` and
  `analyzeBatchEmailContent` with the per-item and batch-level caches;
* `GmailService.searchEmails` of `src/lib/email/gmail.ts` (the request
  actually sent to the provider);
* `EmailScanner.scanEmails` (the current revision of the scan orchestrator),
  with its existence check, batch loop, acceptance threshold, create/upsert
  bookkeeping and error paths.

Remote services (the OpenAI completion endpoint, the Gmail fetch endpoints)
are modelled as oracle functions supplied as parameters; the store is a list
of `Invoice` records threaded through the operations; `Date.now()` is an
explicit `Nat` parameter (milliseconds).  JavaScript truthiness on optional
strings (`x || d`) is modelled explicitly by `jsTruthy`.  Monetary amounts
and confidence scores are modelled as rationals.
-/

namespace InvoiceTracker

/-- JS truthiness for an optional string: `null`/`undefined` and the empty
string are falsy.  `jsTruthy o` is `none` exactly when `o` is falsy, so
`(jsTruthy o).getD d` models `o || d`. -/
def jsTruthy : Option String → Option String
  | none => none
  | some s => if s = "" then none else some s

/-- Models `a || b` where both sides are nullable strings, with JS
falsiness. -/
def jsOrStr (a b : Option String) : Option String :=
  match jsTruthy a with
  | some s => some s
  | none => b

/-! ## The Invoice store (prisma/schema.prisma, model Invoice)

Fields of the Prisma `Invoice` model that the pipeline reads or writes.
`DateTime` values are carried as the strings they were built from (the
pipeline never inspects them), `Float` amounts as rationals, `Date.now()`
instants as `Nat` milliseconds. -/

structure Invoice where
  accountId : String
  userId : String
  messageId : String
  threadId : Option String
  subject : String
  /-- the `from` column (`from` is a Lean keyword) -/
  fromAddr : String
  /-- the `to` column (`to` is a Lean keyword) -/
  toAddr : Option String
  /-- the `date` column; carries the string the `Date` was constructed from -/
  dateStr : String
  amount : ℚ
  currency : String
  fileName : Option String
  fileType : Option String
  fileSize : Option Nat
  status : String
  processedAt : Option Nat
  error : Option String
  categories : List String
  vendor : Option String
  invoiceNumber : Option String
  dueDateStr : Option String
  confidence : Option ℚ
  source : Option String
  rawContent : Option String
  deriving DecidableEq, Repr

/-- The persistent store: the rows of the Invoice table, in insertion order. -/
abbrev Store := List Invoice

/-- Is there a row with the given messageId (the schema's global
`messageId @unique` constraint key)? -/
def hasMid (s : Store) (mid : String) : Bool :=
  s.any fun r => r.messageId = mid

/-- Is there a row with the given (accountId, messageId) pair (the schema's
`@@unique([accountId, messageId])` constraint key)? -/
def hasAccMid (s : Store) (acc mid : String) : Bool :=
  s.any fun r => r.accountId = acc && r.messageId = mid

/-- Models `prisma.invoice.create`: inserts the row unless it violates one of the
two uniqueness constraints of the schema (`messageId @unique`,
`@@unique([accountId, messageId])`); a violation makes the call throw, which
we model as `none`. -/
def prismaInvoiceCreate (s : Store) (r : Invoice) : Option Store :=
  if hasMid s r.messageId || hasAccMid s r.accountId r.messageId then none
  else some (s ++ [r])

/-- Models `prisma.invoice.upsert({ where: { messageId }, update, create })`: if a
row with the messageId exists it is updated in place by `upd`, otherwise the
`create` payload `r` is inserted (subject to the same constraints as
`prismaInvoiceCreate`; a constraint violation throws, modelled by `none`). -/
def prismaInvoiceUpsert (s : Store) (mid : String) (upd : Invoice → Invoice)
    (r : Invoice) : Option Store :=
  if hasMid s mid then
    some (s.map fun row => if row.messageId = mid then upd row else row)
  else
    prismaInvoiceCreate s r

/-- All the update payloads the orchestrator passes to `upsert` touch only
`status`, `error`, `processedAt` and `rawContent`; in particular they leave
the key columns `accountId` and `messageId` unchanged. -/
def keysFixed (upd : Invoice → Invoice) : Prop :=
  ∀ r, (upd r).accountId = r.accountId ∧ (upd r).messageId = r.messageId

/-- No two rows share their (accountId, messageId) pair: the at-most-once
guarantee of the schema's `@@unique([accountId, messageId])`. -/
def AccMidUnique (s : Store) : Prop :=
  s.Pairwise fun r₁ r₂ => ¬(r₁.accountId = r₂.accountId ∧ r₁.messageId = r₂.messageId)

/-- No two rows share their messageId: the schema's global
`messageId @unique`. -/
def MidUnique (s : Store) : Prop :=
  s.Pairwise fun r₁ r₂ => r₁.messageId ≠ r₂.messageId

instance (s : Store) : Decidable (AccMidUnique s) := by
  unfold AccMidUnique; infer_instance

instance (s : Store) : Decidable (MidUnique s) := by
  unfold MidUnique; infer_instance

/-- Number of rows carrying a given (accountId, messageId) pair. -/
def pairCount (s : Store) (acc mid : String) : Nat :=
  (s.filter fun r => r.accountId = acc && r.messageId = mid).length

/-- Number of rows carrying a given messageId. -/
def midCount (s : Store) (mid : String) : Nat :=
  (s.filter fun r => r.messageId = mid).length

/-! ## OpenAIService (src/lib/openai/service.ts)

The in-memory TTL caches, the single-item path `analyzeWithModel` and the
batch path `processBatch` / `analyzeBatchEmailContent`.  The remote
chat-completion endpoint is an oracle; the two pure regex-based helpers
(`preprocessContent`, `extractAmountWithRegex`) are carried as function
parameters of the environment, since the claims depend only on their purity
and determinism, not on their internals.  Every issued provider request is
recorded in a trace, as is a hit of the batch-level cache. -/

/-- CACHE_TTL_MS = 24 hours. -/
def CACHE_TTL_MS : Nat := 24 * 60 * 60 * 1000

/-- OpenAIService.BATCH_SIZE. -/
def BATCH_SIZE : Nat := 10

/-- OpenAIService.MAX_TOKENS_PER_BATCH. -/
def MAX_TOKENS_PER_BATCH : Nat := 10000

/-- OpenAIService.MAX_TOKENS_PER_EMAIL. -/
def MAX_TOKENS_PER_EMAIL : Nat := 10000

/-- One cache slot: a payload and its creation instant (class Cache,
interface CacheEntry). -/
structure CacheEntry (α : Type) where
  data : α
  timestamp : Nat
  deriving DecidableEq, Repr

/-- An in-memory `Map`-backed cache keyed by the string cache key. -/
abbrev CacheMap (α : Type) := List (String × CacheEntry α)

/-- Models Cache.get: a present entry older than the TTL is deleted and
reported as a miss; a fresh entry is a hit.  Returns the possibly-shrunk
cache alongside the lookup result. -/
def cacheGet (c : CacheMap α) (key : String) (now : Nat) :
    CacheMap α × Option α :=
  match c.find? fun p => p.1 == key with
  | none => (c, none)
  | some (_, e) =>
    if now - e.timestamp > CACHE_TTL_MS then
      (c.filter fun p => !(p.1 == key), none)
    else
      (c, some e.data)

/-- Models Cache.set: stores the payload with the current instant
(replacing any previous entry under the key). -/
def cacheSet (c : CacheMap α) (key : String) (data : α) (now : Nat) :
    CacheMap α :=
  (c.filter fun p => !(p.1 == key)) ++ [(key, ⟨data, now⟩)]

/-- Models generateCacheKey: the source prefixes a sha256 of
`content + model`; the hash is modelled injectively by keeping the
concatenation itself. -/
def generateCacheKey (content model : String) : String :=
  "ai_cache_" ++ content ++ model

/-- The normalized extraction result (type InvoiceData of the source). -/
structure InvoiceData where
  vendor : Option String
  invoiceNumber : Option String
  date : Option String
  dueDate : Option String
  totalAmount : Option ℚ
  currency : Option String
  isInvoice : Bool
  confidence : ℚ
  categories : List String
  source : String
  processed : Option Bool
  error : Option String
  deriving DecidableEq, Repr

/-- Models getDefaultResponse(). -/
def getDefaultResponse : InvoiceData :=
  { vendor := none
    invoiceNumber := none
    date := none
    dueDate := none
    totalAmount := none
    currency := none
    isInvoice := false
    confidence := 0
    categories := []
    source := "email"
    processed := none
    error := none }

/-- The raw parsed JSON reply of the single-item call (interface AIResponse
of the source); every field may be absent. -/
structure AIResponse where
  vendor : Option String
  invoiceNumber : Option String
  receiptNumber : Option String
  date : Option String
  invoiceDate : Option String
  dueDate : Option String
  totalAmount : Option ℚ
  currency : Option String
  isInvoice : Option Bool
  confidence : Option ℚ
  categories : Option (List String)
  category : Option String
  deriving DecidableEq, Repr

/-- A provider failure; `code` is the `error.code` property when the thrown
value carries one (isErrorWithCode). -/
structure AIError where
  code : Option String
  deriving DecidableEq, Repr

/-- Provider call trace: one event per issued chat-completion request, plus
an event marking a hit of the batch-level response cache. -/
inductive TraceEvent where
  | modelCall (content model : String)
  | batchCacheHit (key : String)
  deriving DecidableEq, Repr

/-- The mutable module state of the service: the two cache singletons
(`emailCache : Cache<InvoiceData>`, `responseCache :
Cache<BatchAnalysisResult>`) and the trace of provider interactions. -/
structure AIState where
  emailCache : CacheMap InvoiceData
  responseCache : CacheMap (List (String × InvoiceData))
  trace : List TraceEvent
  deriving DecidableEq, Repr

/-- One attachment as handed to the extraction layer (type Attachment). -/
structure Attachment where
  filename : String
  mimeType : String
  data : String
  deriving DecidableEq, Repr

/-- One email of a batch (type BatchEmailItem). -/
structure BatchEmailItem where
  id : String
  subject : String
  body : String
  attachments : List Attachment
  deriving DecidableEq, Repr

/-- The deterministic environment of the service: the two pure regex-based
helpers of the source and the two remote-call oracles.  `pre` is
preprocessContent (pure), `extractAmountWithRegex` the regex amount
fallback (pure); `oracle` is the single-item chat completion on (processed
content, model), `batchOracle` the batch chat completion on the combined
batch prompt, returning the parsed JSON object keyed by item id. -/
structure AIEnv where
  pre : String → Nat → String
  extractAmountWithRegex : String → Option ℚ × Option String
  oracle : String → String → Except AIError AIResponse
  batchOracle : String → Except String (String → Option InvoiceData)

/-- Models `a || b || null` on nullable strings. -/
def jsOrNull (a b : Option String) : Option String :=
  match jsTruthy a with
  | some s => some s
  | none => jsTruthy b

/-- Models lines 379–396 of service.ts: shaping the raw AIResponse into an
InvoiceData, with JS falsiness on every `||` and on the
`totalAmount ? parseFloat(...) : null` conditional (0 is falsy). -/
def shapeAIResponse (resp : AIResponse) : InvoiceData :=
  { vendor := jsTruthy resp.vendor
    invoiceNumber := jsOrNull resp.invoiceNumber resp.receiptNumber
    date := jsOrNull resp.invoiceDate resp.date
    dueDate := jsTruthy resp.dueDate
    totalAmount := resp.totalAmount.bind fun q => if q = 0 then none else some q
    currency := jsTruthy resp.currency
    isInvoice := resp.isInvoice.getD false
    confidence := resp.confidence.getD 0
    categories :=
      match resp.categories with
      | some l => l
      | none =>
        match jsTruthy resp.category with
        | some c => [c]
        | none => []
    source := "email"
    processed := none
    error := none }

/-- Models lines 398–413 of service.ts: when the AI found no (nonzero)
amount, try the regex fallback on the processed content; `if (amount)`
treats 0 as falsy. -/
def applyRegexFallback (env : AIEnv) (processedContent : String)
    (d : InvoiceData) : InvoiceData :=
  if (d.totalAmount = none ∨ d.totalAmount = some 0) ∧ processedContent ≠ "" then
    let (amount, currency) := env.extractAmountWithRegex processedContent
    match amount with
    | some q =>
      if q = 0 then d
      else
        { d with totalAmount := some q
                 currency := jsOrStr currency d.currency }
    | none => d
  else d

/-- The body of analyzeWithModel up to the catch clause: per-item cache
lookup (with TTL expiry), the short-content guard, the provider call, the
response shaping with the regex amount fallback, and the caching of a
successful result.  The catch clause is the `onError` continuation, which
receives the thrown error and the state at the failure point. -/
def analyzeWithModelCore (env : AIEnv) (now : Nat) (st : AIState)
    (content model : String)
    (onError : AIError → AIState → AIState × InvoiceData) :
    AIState × InvoiceData :=
  let processedContent := env.pre content MAX_TOKENS_PER_EMAIL
  let cacheKey := generateCacheKey processedContent model
  let (ec, cached) := cacheGet st.emailCache cacheKey now
  let st₁ := { st with emailCache := ec }
  match cached with
  | some d => (st₁, d)
  | none =>
    if processedContent.length < 50 then (st₁, getDefaultResponse)
    else
      let st₂ := { st₁ with trace := st₁.trace ++ [.modelCall processedContent model] }
      match env.oracle processedContent model with
      | .ok resp =>
        let responseData := applyRegexFallback env processedContent (shapeAIResponse resp)
        ({ st₂ with emailCache := cacheSet st₂.emailCache cacheKey responseData now },
          responseData)
      | .error e => onError e st₂

/-- Models OpenAIService.analyzeWithModel(content, model, isRetry).  The
catch clause retries once — by calling itself with `isRetry = true`, here
inlined as the core with the plain default-response handler, which is what
the `isRetry = true` instance reduces to — when the call is not already a
retry, the model is `gpt-3.5-turbo` and the thrown error carries a
`rate_limit_exceeded` or `server_error` code; every other failure returns
`getDefaultResponse()` (which carries no error string). -/
def analyzeWithModel (env : AIEnv) (now : Nat) (st : AIState)
    (content model : String) (isRetry : Bool) : AIState × InvoiceData :=
  analyzeWithModelCore env now st content model fun e st₂ =>
    if isRetry = false ∧ model = "gpt-3.5-turbo" ∧
        (e.code = some "rate_limit_exceeded" ∨ e.code = some "server_error") then
      analyzeWithModelCore env now st₂ content "gpt-3.5-turbo"
        fun _ st₃ => (st₃, getDefaultResponse)
    else (st₂, getDefaultResponse)

/-- Per-email content block of the batch prompt (Subject/Body lines), with
the `email.subject || "No Subject"` default. -/
def batchEmailContent (env : AIEnv) (e : BatchEmailItem) : String :=
  "Subject: " ++ (if e.subject = "" then "No Subject" else e.subject) ++
    "\nBody: " ++ env.pre e.body 1500

/-- The combined batch prompt labelling each item by id. -/
def buildBatchPrompt (env : AIEnv) (emails : List BatchEmailItem) : String :=
  String.intercalate "\n\n" <| emails.enum.map fun p =>
    "--- Email " ++ toString (p.1 + 1) ++ " (ID: " ++ p.2.id ++ ") ---\n" ++
      batchEmailContent env p.2

/-- Sum of the per-email token estimates `Math.ceil(length / 4)` of the
Subject/Body blocks (the `--- Email`-header line is not counted, exactly as
in the source). -/
def batchTokens (env : AIEnv) (emails : List BatchEmailItem) : Nat :=
  (emails.map fun e => ((batchEmailContent env e).length + 3) / 4).sum

/-- The per-item cache key that processBatch computes for an email,
`generateCacheKey(body + subject, "gpt-3.5-turbo")`. -/
def emailKey (e : BatchEmailItem) : String :=
  generateCacheKey (e.body ++ e.subject) "gpt-3.5-turbo"

/-- Models the leading loop of processBatch: split the batch into items
answered by the per-item cache (in order) and items still needing a model
call, threading the cache through each (possibly expiring) lookup. -/
def splitCached (now : Nat) : CacheMap InvoiceData → List BatchEmailItem →
    CacheMap InvoiceData × List (String × InvoiceData) × List BatchEmailItem
  | c, [] => (c, [], [])
  | c, e :: rest =>
    let (c₁, hit) := cacheGet c (emailKey e) now
    let (c₂, cachedResults, toProcess) := splitCached now c₁ rest
    match hit with
    | some d => (c₂, (e.id, d) :: cachedResults, toProcess)
    | none => (c₂, cachedResults, e :: toProcess)

/-- Association-list lookup for per-item result maps. -/
def lookupA (l : List (String × InvoiceData)) (k : String) : Option InvoiceData :=
  (l.find? fun p => p.1 == k).map fun p => p.2

/-- Models the JS object spread `{...a, ...b}` on per-item result maps:
keys of `a` in order (values overridden by `b` where present), then the
keys only `b` has. -/
def mergeAssoc (a b : List (String × InvoiceData)) : List (String × InvoiceData) :=
  (a.map fun p => (p.1, (lookupA b p.1).getD p.2)) ++
    b.filter fun p => (lookupA a p.1).isNone

/-- Models the normalization applied to each uncached item's raw batch
result: force `processed`, coerce `isInvoice`/`categories`, default
`source` (with JS falsiness on `source ||`). -/
def normalizeBatchResult (d : InvoiceData) : InvoiceData :=
  { d with processed := some true
           source := if d.source = "" then "email" else d.source }

/-- Models the back-fill loop of processBatch: each freshly computed
per-item result is cached under the per-item key of the matching email. -/
def cacheIndividual (now : Nat) (emailsToProcess : List BatchEmailItem) :
    List (String × InvoiceData) → CacheMap InvoiceData → CacheMap InvoiceData
  | [], c => c
  | (id, r) :: rest, c =>
    let c₁ :=
      match emailsToProcess.find? fun e => e.id == id with
      | some e => cacheSet c (emailKey e) r now
      | none => c
    cacheIndividual now emailsToProcess rest c₁

/-- Models OpenAIService.processBatch.  The fuel bounds the
split-and-recurse on oversized batches, which the source performs with no
recursion floor (a single over-budget email recurses forever); exhausted
fuel is `none`.  On a batch-level cache hit the source spreads the cached
*map* into each per-item result, so every item of `emails` receives the
default response with `processed: true` (the id-keyed junk properties of
the spread are invisible to the typed fields). -/
def processBatch (env : AIEnv) (now : Nat) :
    Nat → AIState → List BatchEmailItem →
    Option (AIState × List (String × InvoiceData))
  | 0, _, _ => none
  | fuel + 1, st, emails =>
    let (ec, cachedResults, emailsToProcess) := splitCached now st.emailCache emails
    let st₁ := { st with emailCache := ec }
    if emailsToProcess.isEmpty then some (st₁, cachedResults)
    else
      let batchPrompt := buildBatchPrompt env emailsToProcess
      if batchTokens env emailsToProcess > MAX_TOKENS_PER_BATCH then
        let half := (emailsToProcess.length + 1) / 2
        match processBatch env now fuel st₁ (emailsToProcess.take half) with
        | none => none
        | some (st₂, firstHalf) =>
          match processBatch env now fuel st₂ (emailsToProcess.drop half) with
          | none => none
          | some (st₃, secondHalf) =>
            some (st₃, mergeAssoc (mergeAssoc firstHalf secondHalf) cachedResults)
      else
        let cacheKey := generateCacheKey batchPrompt "gpt-3.5-turbo"
        let (rc, cachedBatch) := cacheGet st₁.responseCache cacheKey now
        let st₂ := { st₁ with responseCache := rc }
        match cachedBatch with
        | some _ =>
          let st₃ := { st₂ with trace := st₂.trace ++ [.batchCacheHit cacheKey] }
          let batchResult := emails.map fun e =>
            (e.id, { getDefaultResponse with processed := some true })
          some (st₃, mergeAssoc batchResult cachedResults)
        | none =>
          let st₃ := { st₂ with trace := st₂.trace ++ [.modelCall batchPrompt "gpt-3.5-turbo"] }
          match env.batchOracle batchPrompt with
          | .ok amap =>
            let processedResults := emailsToProcess.map fun e =>
              (e.id, normalizeBatchResult ((amap e.id).getD getDefaultResponse))
            let st₄ := { st₃ with
              emailCache := cacheIndividual now emailsToProcess processedResults st₃.emailCache }
            let st₅ := { st₄ with
              responseCache := cacheSet st₄.responseCache cacheKey processedResults now }
            some (st₅, mergeAssoc processedResults cachedResults)
          | .error _ =>
            let errorResults := emailsToProcess.map fun e =>
              (e.id, { getDefaultResponse with
                        processed := some false
                        error := some "Failed to process batch" })
            some (st₃, mergeAssoc errorResults cachedResults)

/-- Structural worker for `chunksOf`; the fuel is an upper bound on the
number of chunks (the list length suffices). -/
def chunksOfGo (n : Nat) : Nat → List α → List (List α)
  | _, [] => []
  | 0, _ :: _ => []
  | fuel + 1, x :: xs => (x :: xs.take (n - 1)) :: chunksOfGo n fuel (xs.drop (n - 1))

/-- Chunks of size `n` of a list (the `slice(i, i + BATCH_SIZE)` loop). -/
def chunksOf (n : Nat) (l : List α) : List (List α) :=
  chunksOfGo n l.length l

/-- Models the chunk loop of analyzeBatchEmailContent
(`Object.assign(results, batchResults)` accumulates later chunks over
earlier ones). -/
def analyzeBatchChunks (env : AIEnv) (now fuel : Nat) :
    AIState → List (String × InvoiceData) → List (List BatchEmailItem) →
    Option (AIState × List (String × InvoiceData))
  | st, results, [] => some (st, results)
  | st, results, chunk :: rest =>
    match processBatch env now fuel st chunk with
    | some (st₁, batchResults) =>
      analyzeBatchChunks env now fuel st₁ (mergeAssoc results batchResults) rest
    | none => none

/-- Models OpenAIService.analyzeBatchEmailContent (the public classifyBatch
entry point): chunk by BATCH_SIZE and merge the per-chunk maps. -/
def analyzeBatchEmailContent (env : AIEnv) (now fuel : Nat) (st : AIState)
    (emails : List BatchEmailItem) :
    Option (AIState × List (String × InvoiceData)) :=
  if emails.isEmpty then some (st, [])
  else analyzeBatchChunks env now fuel st [] (chunksOf BATCH_SIZE emails)

/-! ## GmailService.searchEmails (src/lib/email/gmail.ts, lines 62–105)

The method builds a keyword clause, a date clause and an exclusion clause,
combines part of them into `cleanQuery` — and then issues
`gmail.users.messages.list({ userId, maxResults, pageToken })` without any
`q` field.  We embed both the built query string and the request the
provider actually receives. -/

/-- The keyword clause built (and never used) by searchEmails. -/
def searchEmailsKeywords : String :=
  String.intercalate " OR "
    ["invoice", "receipt", "bill", "payment", "\"purchase order\"",
     "\"sales order\"", "\"tax invoice\"", "statement", "\"order confirmation\""]

/-- The date clause: July 1st of the previous year. -/
def searchEmailsDateSpec (currentYear : Nat) : String :=
  "after:" ++ toString (currentYear - 1) ++ "/07/01"

/-- The Uber-Eats exclusion clause. -/
def searchEmailsExcludeUberEats : String :=
  "-Uber -\"Uber Eats\""

/-- Models `fullQuery`: note that the source combines only the anywhere
spec, the date spec and the exclusion — the keyword clause is not
interpolated. -/
def searchEmailsFullQuery (currentYear : Nat) : String :=
  "in:anywhere" ++ " " ++ searchEmailsDateSpec currentYear ++ " " ++
    searchEmailsExcludeUberEats

/-- Models `s.replace(/\s+/g, " ").trim()`. -/
def collapseWhitespace (s : String) : String :=
  String.intercalate " " <|
    (s.split fun c => c == ' ' || c == '\n' || c == '\t' || c == '\r').filter
      fun w => w ≠ ""

/-- Models `cleanQuery` (built and then dropped by the source). -/
def searchEmailsCleanQuery (currentYear : Nat) : String :=
  collapseWhitespace (searchEmailsFullQuery currentYear)

/-- The parameters of a `gmail.users.messages.list` call. -/
structure GmailListRequest where
  userId : String
  q : Option String
  maxResults : Nat
  pageToken : Option String
  deriving DecidableEq, Repr

/-- The request searchEmails actually sends: `{ userId: "me", maxResults,
pageToken }` — no `q` field at all; the `query` argument, the keyword
clause and `cleanQuery` are dead. -/
def searchEmailsRequest (query : String) (maxResults : Nat)
    (pageToken : Option String) : GmailListRequest :=
  let _ := query
  { userId := "me", q := none, maxResults := maxResults, pageToken := pageToken }

/-! ## EmailScanner.scanEmails (current revision)

The scan orchestrator: per-page filter loop with the (account, message-id)
existence check, sub-batches of 5, per-item acceptance, create/upsert
bookkeeping, and the three error paths (fetch error entries, inner
fetch-failure upserts, the whole-sub-batch `scan-error-` create with early
return).  The Gmail fetches and the batch classification are oracles; the
search result (message stubs and continuation token) is an input. -/

/-- A Gmail message header (types.ts GmailHeader). -/
structure GmailHeader where
  name : String
  value : String
  deriving DecidableEq, Repr

/-- The payload part of a fetched message that the scanner reads
directly (the MIME parts and body are consumed only by the
getMessageBody/getAttachments oracles). -/
structure GmailPayload where
  headers : List GmailHeader
  deriving DecidableEq, Repr

/-- A fetched Gmail message as the scanner sees it (types.ts
GmailMessage restricted to the fields the scanner reads). -/
structure GmailMessage where
  id : String
  threadId : String
  payload : Option GmailPayload
  internalDate : Option String
  deriving DecidableEq, Repr

/-- Models isValidGmailMessage: truthy id and threadId. -/
def isValidGmailMessage (m : GmailMessage) : Bool :=
  !(m.id == "") && !(m.threadId == "")

/-- Models `message.payload?.headers ?? []`. -/
def headersOf (m : GmailMessage) : List GmailHeader :=
  (m.payload.map fun p => p.headers).getD []

/-- Models `headers.find(h => h.name === n)?.value`. -/
def findHeaderValue (headers : List GmailHeader) (n : String) : Option String :=
  (headers.find? fun h => h.name == n).map fun h => h.value

/-- Models EmailScanner.findHeader: empty string when the headers are
absent or the name is not found. -/
def findHeader (headers : Option (List GmailHeader)) (n : String) : String :=
  match headers with
  | none => ""
  | some hs =>
    match hs.find? fun h => h.name == n with
    | some h => h.value
    | none => ""

/-- Models `s || d` on plain strings (empty string is falsy). -/
def jsDefault (s d : String) : String :=
  if s = "" then d else s

/-- One attachment as returned by the getAttachments oracle
(filename/mimeType/data may be absent on the wire). -/
structure RawAttachment where
  filename : Option String
  mimeType : Option String
  data : Option String
  deriving DecidableEq, Repr

/-- The deterministic environment of a scan: the Gmail fetch oracles and
the extraction-service call. -/
structure ScanEnv where
  getMessage : String → Except String GmailMessage
  getMessageBody : GmailMessage → Except String String
  getAttachments : GmailMessage → Except String (List RawAttachment)
  analyzeBatch : List BatchEmailItem → Except String (String → Option InvoiceData)

/-- One entry of the scanner's `this.errors` list. -/
structure ErrEntry where
  messageId : String
  error : String
  timestamp : Nat
  deriving DecidableEq, Repr

/-- The summary a scan invocation returns. -/
structure ScanResult where
  processed : Nat
  skipped : Nat
  errors : Nat
  hasMore : Bool
  nextPageToken : Option String
  errorDetails : Option (List ErrEntry)
  deriving DecidableEq, Repr

/-- The three counters of a scan. -/
structure ScanCounts where
  processed : Nat
  skipped : Nat
  errors : Nat
  deriving DecidableEq, Repr

/-- Pointwise sum of counters. -/
def addCounts (a b : ScanCounts) : ScanCounts :=
  ⟨a.processed + b.processed, a.skipped + b.skipped, a.errors + b.errors⟩

/-- Output of the filter loop (phase 1) of scanEmails. -/
structure Phase1Out where
  skipped : Nat
  errors : Nat
  errEntries : List ErrEntry
  toProcess : List GmailMessage
  deriving Repr

/-- Models the filter loop of scanEmails: for each stub, skip falsy ids,
skip (unless forceRescan) messages whose (account, message-id) row already
exists, fetch the rest, and record fetch failures as error entries. -/
def phase1 (env : ScanEnv) (acc : String) (force : Bool) (store : Store)
    (now : Nat) : List GmailMessage → Phase1Out
  | [] => ⟨0, 0, [], []⟩
  | m :: rest =>
    let r := phase1 env acc force store now rest
    if m.id = "" then r
    else if !force && hasAccMid store acc m.id then
      { r with skipped := r.skipped + 1 }
    else
      match env.getMessage m.id with
      | .ok full => { r with toProcess := full :: r.toProcess }
      | .error e =>
        { r with errors := r.errors + 1
                 errEntries :=
                   ⟨m.id, "Error processing batch: " ++ e, now⟩ :: r.errEntries }

/-- An item assembled for batch classification, keeping the full message
for the later header reads. -/
structure ScanItem where
  id : String
  subject : String
  body : String
  attachments : List Attachment
  fullMessage : GmailMessage
  deriving DecidableEq, Repr

/-- Models the catch branch of the per-message fetch closure: count an
error, record an error entry, and upsert an error-status row keyed by the
message id (a failing upsert is caught and ignored).  Unset columns of the
create payload take their schema defaults. -/
def fetchScanItemFail (env : ScanEnv) (now : Nat) (acc usr : String)
    (store : Store) (m : GmailMessage) (e : String) :
    Store × Option ErrEntry × Option ScanItem :=
  let errorMessage := "Error processing message " ++ m.id ++ ": " ++ e
  let entry : ErrEntry := ⟨jsDefault m.id "unknown", errorMessage, now⟩
  let hs := m.payload.map fun p => p.headers
  let subject := jsDefault (findHeader hs "Subject") "No Subject"
  let fromA := jsDefault (findHeader hs "From") "Unknown Sender"
  let toA := jsDefault (findHeader hs "To") "N/A"
  let dateHeader := jsDefault (findHeader hs "Date") (toString now)
  let body :=
    match env.getMessageBody m with
    | .ok b => b
    | .error _ => "No email body content"
  let emailContent :=
    "Subject: " ++ subject ++ "\nFrom: " ++ fromA ++ "\nTo: " ++ toA ++
      "\nDate: " ++ dateHeader ++ "\n\n\n" ++ body
  let upd := fun (r : Invoice) =>
    { r with status := "error", error := some errorMessage,
             processedAt := some now, rawContent := some emailContent }
  let row : Invoice :=
    { accountId := acc, userId := usr
      messageId := if m.id = "" then "error-" ++ toString now else m.id
      threadId := if m.threadId = "" then none else some m.threadId
      subject := subject, fromAddr := fromA, toAddr := none
      dateStr := (jsTruthy m.internalDate).getD (toString now)
      amount := 0, currency := "AUD"
      fileName := none, fileType := none, fileSize := none
      status := "error", processedAt := some now, error := some errorMessage
      categories := [], vendor := none, invoiceNumber := none
      dueDateStr := none, confidence := some 1, source := some "email"
      rawContent := some emailContent }
  let store' := (prismaInvoiceUpsert store m.id upd row).getD store
  (store', some entry, none)

/-- Models the shaping of the fetched attachments: drop those whose data is
absent (`att.data != null`) and default filename and MIME type. -/
def shapeAttachments (ratts : List RawAttachment) : List Attachment :=
  ratts.filterMap fun a =>
    a.data.map fun d =>
      ({ filename := a.filename.getD "unknown"
         mimeType := a.mimeType.getD "application/octet-stream"
         data := d } : Attachment)

/-- Models the per-message fetch closure of the sub-batch loop: read the
subject, fetch body and attachments, shape the attachments
(`att.data != null` filter with filename/mimeType defaults); any failure
goes through the catch branch. -/
def fetchScanItem (env : ScanEnv) (now : Nat) (acc usr : String)
    (store : Store) (m : GmailMessage) :
    Store × Option ErrEntry × Option ScanItem :=
  match env.getMessageBody m with
  | .error e => fetchScanItemFail env now acc usr store m e
  | .ok body =>
    match env.getAttachments m with
    | .error e => fetchScanItemFail env now acc usr store m e
    | .ok ratts =>
      (store, none,
        some ⟨m.id, (findHeaderValue (headersOf m) "Subject").getD "No Subject",
          body, shapeAttachments ratts, m⟩)

/-- Approximates `Buffer.byteLength(data, "base64")` (decoded size of a
base64 payload); no claim reads the stored size. -/
def base64ByteLength (s : String) : Nat :=
  s.length * 3 / 4

/-- The acceptance threshold 0.5 of the current revision
(`analysis.confidence < 0.5`), written as a normalized rational so that
concrete scans evaluate inside the kernel. -/
def confidenceThreshold : ℚ := ⟨1, 2, by decide, by decide⟩

/-- The create attempt of an accepted item: a successful create (followed
by the remote markAsProcessed labelling, a scan-state no-op) counts the
message as processed; a thrown create error — in particular a uniqueness
violation — is rethrown into the per-item catch, which counts an error and
continues. -/
def createInvoiceStep (store : Store) (row : Invoice) : Store × ScanCounts :=
  match prismaInvoiceCreate store row with
  | some store' => (store', ⟨1, 0, 0⟩)
  | none => (store, ⟨0, 0, 1⟩)

/-- Models the per-item persist step of scanEmails (lines 744–867 of the
current revision): missing or error-carrying analyses count as errors;
non-invoices and low-confidence results are skipped; accepted results are
mapped to an Invoice row and created, a create failure (in particular a
uniqueness violation) being swallowed by the per-item catch as an error. -/
def scanItemStep (now : Nat) (acc usr : String)
    (amap : String → Option InvoiceData) (store : Store) (item : ScanItem) :
    Store × ScanCounts :=
  match amap item.id with
  | none => (store, ⟨0, 0, 1⟩)
  | some analysis =>
    if (jsTruthy analysis.error).isSome then (store, ⟨0, 0, 1⟩)
    else if !analysis.isInvoice then (store, ⟨0, 1, 0⟩)
    else if analysis.confidence < confidenceThreshold then (store, ⟨0, 1, 0⟩)
    else
      let headers := (item.fullMessage.payload.map fun p => p.headers).getD []
      let fromA := (findHeaderValue headers "From").getD "Unknown"
      let toA : Option String := findHeaderValue headers "To"
      let dateHeader := (findHeaderValue headers "Date").getD (toString now)
      let invoiceDate := (jsTruthy analysis.date).getD dateHeader
      let amount : ℚ := analysis.totalAmount.getD 0
      let firstAttachment := item.attachments.head?
      let fileSize := firstAttachment.bind fun a =>
        if a.data = "" then none else some (base64ByteLength a.data)
      let emailContent :=
        "Subject: " ++ item.subject ++ "\nFrom: " ++ fromA ++ "\nTo: " ++
          (jsTruthy toA).getD "N/A" ++ "\nDate: " ++ dateHeader ++ "\n\n\n" ++
          jsDefault item.body "No email body content"
      let row : Invoice :=
        { accountId := acc, userId := usr, messageId := item.id
          threadId := none
          subject := item.subject, fromAddr := fromA, toAddr := toA
          dateStr := invoiceDate, amount := amount
          currency := analysis.currency.getD "AUD"
          fileName := firstAttachment.map fun a => a.filename
          fileType := firstAttachment.map fun a => a.mimeType
          fileSize := fileSize, status := "processed"
          processedAt := some now, error := none
          categories := analysis.categories
          vendor := some ((jsTruthy analysis.vendor).getD ((fromA.splitOn "@").headD ""))
          invoiceNumber := analysis.invoiceNumber
          dueDateStr := jsTruthy analysis.dueDate
          confidence := some analysis.confidence
          source := some analysis.source
          rawContent := some emailContent }
      createInvoiceStep store row

/-- The fetch phase of one sub-batch, in order. -/
def fetchChunk (env : ScanEnv) (now : Nat) (acc usr : String) :
    Store → List GmailMessage → Store × List ErrEntry × List ScanItem
  | store, [] => (store, [], [])
  | store, m :: rest =>
    let (store₁, entry, item) := fetchScanItem env now acc usr store m
    let (store₂, entries, items) := fetchChunk env now acc usr store₁ rest
    (store₂, entry.toList ++ entries, item.toList ++ items)

/-- The per-item persist loop of one sub-batch. -/
def runItems (now : Nat) (acc usr : String) (amap : String → Option InvoiceData) :
    Store → ScanCounts → List ScanItem → Store × ScanCounts
  | store, counts, [] => (store, counts)
  | store, counts, item :: rest =>
    let (store₁, inc) := scanItemStep now acc usr amap store item
    runItems now acc usr amap store₁ (addCounts counts inc) rest

/-- The running accumulator of the sub-batch loop. -/
structure BatchAcc where
  store : Store
  counts : ScanCounts
  errEntries : List ErrEntry

/-- A sub-batch either completes (the loop continues) or aborts the scan
via the outer catch. -/
inductive ChunkOut where
  | done (b : BatchAcc)
  | aborted (b : BatchAcc)

/-- The store carried by either outcome of a sub-batch. -/
def chunkStore : ChunkOut → Store
  | .done b => b.store
  | .aborted b => b.store

/-- The synthetic error row the outer catch of the sub-batch loop creates:
its messageId is the string `scan-error-` followed by the current
timestamp.  Unset columns take their schema defaults. -/
def scanErrorRow (acc usr : String) (now : Nat) (errorMessage : String) : Invoice :=
  { accountId := acc, userId := usr
    messageId := "scan-error-" ++ toString now
    threadId := none, subject := "Scan Error"
    fromAddr := "system@invoicetracker", toAddr := none
    dateStr := toString now, amount := 0, currency := "AUD"
    fileName := none, fileType := none, fileSize := none
    status := "error", processedAt := some now
    error := some errorMessage, categories := []
    vendor := none, invoiceNumber := none, dueDateStr := none
    confidence := some 1, source := some "email", rawContent := none }

/-- Models one iteration of the sub-batch loop: filter invalid messages,
fetch, classify the fetched items in one call, persist item by item.  A
classification call that throws lands in the outer catch: a fresh
`scan-error-<now>` error row is created (create failure ignored) and the
scan aborts. -/
def processChunk (env : ScanEnv) (now : Nat) (acc usr : String)
    (b : BatchAcc) (chunk : List GmailMessage) : ChunkOut :=
  let batch := chunk.filter isValidGmailMessage
  let (store₁, newEntries, items) := fetchChunk env now acc usr b.store batch
  let b₁ : BatchAcc :=
    ⟨store₁,
      { b.counts with errors := b.counts.errors + newEntries.length },
      b.errEntries ++ newEntries⟩
  if items.isEmpty then .done b₁
  else
    match env.analyzeBatch (items.map fun i => ⟨i.id, i.subject, i.body, i.attachments⟩) with
    | .ok amap =>
      let (store₂, counts₂) := runItems now acc usr amap store₁ b₁.counts items
      .done ⟨store₂, counts₂, b₁.errEntries⟩
    | .error e =>
      let store₂ :=
        (prismaInvoiceCreate store₁
          (scanErrorRow acc usr now ("Error in scanEmails: " ++ e))).getD store₁
      .aborted ⟨store₂, { b₁.counts with errors := b₁.counts.errors + 1 }, b₁.errEntries⟩

/-- The sub-batch loop. -/
def batchLoop (env : ScanEnv) (now : Nat) (acc usr : String) :
    BatchAcc → List (List GmailMessage) → ChunkOut
  | b, [] => .done b
  | b, chunk :: rest =>
    match processChunk env now acc usr b chunk with
    | .done b₁ => batchLoop env now acc usr b₁ rest
    | .aborted b₁ => .aborted b₁

/-- The `update` payload of the error-entry upserts. -/
def errUpsertUpd (en : ErrEntry) (now : Nat) (r : Invoice) : Invoice :=
  { r with status := "error", error := some en.error, processedAt := some now }

/-- The `create` payload of the error-entry upserts (unset columns take
their schema defaults). -/
def errUpsertRow (acc usr : String) (now : Nat) (en : ErrEntry) : Invoice :=
  { accountId := acc, userId := usr, messageId := en.messageId
    threadId := none, subject := "Processing Error"
    fromAddr := "system@invoicetracker", toAddr := none
    dateStr := toString now, amount := 0, currency := "AUD"
    fileName := none, fileType := none, fileSize := none
    status := "error", processedAt := some now, error := some en.error
    categories := [], vendor := none, invoiceNumber := none
    dueDateStr := none, confidence := some 1, source := some "email"
    rawContent := none }

/-- The `$transaction` of the error-entry upserts: all-or-nothing. -/
def applyErrUpsertsGo (acc usr : String) (now : Nat) :
    Store → List ErrEntry → Option Store
  | s, [] => some s
  | s, en :: rest =>
    match prismaInvoiceUpsert s en.messageId (errUpsertUpd en now)
        (errUpsertRow acc usr now en) with
    | some s₁ => applyErrUpsertsGo acc usr now s₁ rest
    | none => none

/-- Models the save-remaining-errors block: skipped when the list is empty;
a failing transaction is caught and ignored (rollback). -/
def applyErrUpserts (acc usr : String) (now : Nat) (s : Store)
    (entries : List ErrEntry) : Store :=
  if entries.isEmpty then s
  else (applyErrUpsertsGo acc usr now s entries).getD s

/-- The normal-completion return of scanEmails: run the save-remaining-
errors transaction, report the counters and the continuation token
(`hasMore: !!nextPageToken`, `nextPageToken: nextPageToken || undefined`). -/
def scanEmailsFinish (acc usr : String) (now : Nat) (npt : Option String)
    (b : BatchAcc) : Store × ScanResult :=
  (applyErrUpserts acc usr now b.store b.errEntries,
    ⟨b.counts.processed, b.counts.skipped, b.counts.errors,
      (jsTruthy npt).isSome, jsTruthy npt,
      if b.errEntries.isEmpty then none else some b.errEntries⟩)

/-- The body of scanEmails after the filter loop: early return when nothing
is left to process, otherwise the sub-batch loop, with the outer-catch
abort returning without the final error upserts and with
`hasMore: false`. -/
def scanEmailsRun (env : ScanEnv) (now : Nat) (acc usr : String)
    (npt : Option String) (store : Store) (p1 : Phase1Out) :
    Store × ScanResult :=
  if p1.toProcess.isEmpty then
    scanEmailsFinish acc usr now npt ⟨store, ⟨0, p1.skipped, p1.errors⟩, p1.errEntries⟩
  else
    match batchLoop env now acc usr
        ⟨store, ⟨0, p1.skipped, p1.errors⟩, p1.errEntries⟩
        (chunksOf 5 p1.toProcess) with
    | .done b => scanEmailsFinish acc usr now npt b
    | .aborted b =>
      (b.store,
        ⟨b.counts.processed, b.counts.skipped, b.counts.errors,
          false, none, some b.errEntries⟩)

/-- Models EmailScanner.scanEmails of the current revision, given the
search result (message stubs and continuation token) as input.  Returns the
final store and the scan summary. -/
def scanEmails (env : ScanEnv) (now : Nat) (acc usr : String)
    (messages : List GmailMessage) (nextPageToken : Option String)
    (forceRescan : Bool) (store : Store) : Store × ScanResult :=
  if messages.isEmpty then
    (store, ⟨0, 0, 0, false, none, none⟩)
  else
    scanEmailsRun env now acc usr nextPageToken store
      (phase1 env acc forceRescan store now messages)

/-! ## Orchestrator store operations and reachability -/

/-- One store-mutating operation of the orchestrator: an invoice create
attempt (succeeding or hitting a constraint), an upsert keyed on messageId
(with one of the orchestrator's key-preserving update payloads), or a whole
scan invocation. -/
inductive OrchOp : Store → Store → Prop where
  | createOk {s s' : Store} (r : Invoice) :
      prismaInvoiceCreate s r = some s' → OrchOp s s'
  | createFail {s : Store} (r : Invoice) :
      prismaInvoiceCreate s r = none → OrchOp s s
  | upsertOk {s s' : Store} (mid : String) (upd : Invoice → Invoice) (r : Invoice) :
      keysFixed upd → prismaInvoiceUpsert s mid upd r = some s' → OrchOp s s'
  | upsertFail {s : Store} (mid : String) (upd : Invoice → Invoice) (r : Invoice) :
      prismaInvoiceUpsert s mid upd r = none → OrchOp s s
  | scan {s : Store} (env : ScanEnv) (now : Nat) (acc usr : String)
      (messages : List GmailMessage) (npt : Option String) (force : Bool) :
      OrchOp s (scanEmails env now acc usr messages npt force s).1

/-- Reflexive-transitive closure of the orchestrator operations: the
reachable stores. -/
inductive OrchReach : Store → Store → Prop where
  | refl {s : Store} : OrchReach s s
  | tail {s t u : Store} : OrchReach s t → OrchOp t u → OrchReach s u

/-! ## Concrete demonstration data

Small concrete stores, messages and environments used by the witness and
counterexample theorems. -/

/-- A concrete Invoice row for account `acc1`, message `m1`. -/
def demoInvoice : Invoice :=
  { accountId := "acc1", userId := "u1", messageId := "m1"
    threadId := some "t1", subject := "Inv", fromAddr := "a@b.com"
    toAddr := none, dateStr := "D", amount := 25, currency := "USD"
    fileName := none, fileType := none, fileSize := none
    status := "processed", processedAt := some 0, error := none
    categories := [], vendor := some "a", invoiceNumber := some "42"
    dueDateStr := none, confidence := some ⟨9, 10, by decide, by decide⟩
    source := some "email", rawContent := none }

/-- A concrete fetched Gmail message with id `m1`. -/
def demoMessage : GmailMessage :=
  { id := "m1", threadId := "t1"
    payload := some ⟨[⟨"Subject", "Inv"⟩, ⟨"From", "a@b.com"⟩, ⟨"Date", "D"⟩]⟩
    internalDate := none }

/-- An accepted extraction result (an invoice at confidence 0.9). -/
def demoAnalysisOK : InvoiceData :=
  { vendor := some "Heroku", invoiceNumber := some "42", date := none
    dueDate := none, totalAmount := some 25, currency := some "USD"
    isInvoice := true, confidence := ⟨9, 10, by decide, by decide⟩
    categories := ["cloud"], source := "email", processed := some true
    error := none }

/-- A not-an-invoice extraction result (confidence 0.1, no error). -/
def demoAnalysisSkip : InvoiceData :=
  { getDefaultResponse with confidence := ⟨1, 10, by decide, by decide⟩ }

/-- An error-carrying extraction result (isInvoice false). -/
def demoAnalysisErr : InvoiceData :=
  { getDefaultResponse with processed := some false
                            error := some "Failed to process batch" }

/-- A scan environment fetching exactly one known message and answering the
batch classification with the given outcome. -/
def scanEnvOf (m : GmailMessage) (body : String)
    (res : Except String (String → Option InvoiceData)) : ScanEnv :=
  { getMessage := fun mid => if mid = m.id then .ok m else .error "not found"
    getMessageBody := fun _ => .ok body
    getAttachments := fun _ => .ok []
    analyzeBatch := fun _ => res }

/-- A result map answering `m1` with the accepted analysis. -/
def demoAmapOK : String → Option InvoiceData :=
  fun id => if id = "m1" then some demoAnalysisOK else none

/-- A result map answering `m1` with the not-an-invoice analysis. -/
def demoAmapSkip : String → Option InvoiceData :=
  fun id => if id = "m1" then some demoAnalysisSkip else none

/-- A result map answering `m1` with the error-carrying analysis. -/
def demoAmapErr : String → Option InvoiceData :=
  fun id => if id = "m1" then some demoAnalysisErr else none

/-- The scan item the demo message assembles into. -/
def demoItem : ScanItem :=
  ⟨"m1", "Inv", "demo body", [], demoMessage⟩

/-- The empty extraction-service state (fresh process: empty caches, no
provider interaction yet). -/
def emptyAIState : AIState := ⟨[], [], []⟩

/-- A concrete raw model reply. -/
def demoAIResponse : AIResponse :=
  { vendor := some "Heroku", invoiceNumber := some "106355247"
    receiptNumber := none, date := some "2025-07-07", invoiceDate := none
    dueDate := none, totalAmount := some 25, currency := some "USD"
    isInvoice := some true, confidence := some ⟨19, 20, by decide, by decide⟩
    categories := some ["cloud-services"], category := none }

/-- A content string of length at least 50 (so the short-content guard does
not fire). -/
def demoContent : String :=
  "Invoice from Heroku. TOTAL CHARGE: USD 25.00 due on receipt."

/-- A service environment whose preprocessing is the identity, whose regex
fallback finds nothing, and whose single-item oracle always succeeds with
`demoAIResponse`. -/
def demoAIEnvOK : AIEnv :=
  { pre := fun c _ => c
    extractAmountWithRegex := fun _ => (none, none)
    oracle := fun _ _ => .ok demoAIResponse
    batchOracle := fun _ => .error "unused" }

/-- A service environment whose single-item oracle always fails with the
transient `rate_limit_exceeded` code. -/
def demoAIEnvRate : AIEnv :=
  { demoAIEnvOK with oracle := fun _ _ => .error ⟨some "rate_limit_exceeded"⟩ }

/-- A service environment whose single-item oracle always fails with a
non-transient error (a thrown value with no `code` property, e.g. a JSON
parse failure). -/
def demoAIEnvOther : AIEnv :=
  { demoAIEnvOK with oracle := fun _ _ => .error ⟨none⟩ }

/-- A concrete batch item. -/
def demoEmail : BatchEmailItem :=
  ⟨"e1", "Inv", "Pay us 25 USD", []⟩

/-- A service environment whose batch oracle answers item `e1` with the
accepted analysis. -/
def demoBatchEnv : AIEnv :=
  { pre := fun c _ => c
    extractAmountWithRegex := fun _ => (none, none)
    oracle := fun _ _ => .error ⟨none⟩
    batchOracle := fun _ =>
      .ok fun id => if id = "e1" then some demoAnalysisOK else none }

/-- The (state, result-map) pair of a first classifyBatch invocation on
`[demoEmail]` from the fresh service state. -/
def demoRun1 : AIState × List (String × InvoiceData) :=
  (analyzeBatchEmailContent demoBatchEnv 0 1 emptyAIState [demoEmail]).getD
    (emptyAIState, [])

/-! ## Second-scan idempotence (claim C2): definitions

A scan is deterministic once its environment is: the Gmail oracles are
functions, and the extraction service is modelled as a batch oracle that
never throws and judges each item independently by a fixed per-item
function (the behaviour of the real service on any fixed corpus).  The
settledness predicates below say of a store that re-processing a given
message against it cannot insert a row. -/

/-- The projection of a fetched scan item to the batch-service item shape
(the `emails.map` argument of the classification call). -/
def shItem (it : ScanItem) : BatchEmailItem :=
  ⟨it.id, it.subject, it.body, it.attachments⟩

/-- A batch-classification oracle that never throws and judges every item
independently through a fixed per-item function `f`: the returned map sends
an id to `f` of the first batch item carrying that id. -/
def perItemAnalyze (f : BatchEmailItem → Option InvoiceData) :
    List BatchEmailItem → Except String (String → Option InvoiceData) :=
  fun items => .ok fun i => (items.find? fun it => it.id = i).bind f

/-- The per-item result map `perItemAnalyze f` hands to the persist loop of
one sub-batch with fetched items `items`. -/
def chunkAmap (f : BatchEmailItem → Option InvoiceData)
    (items : List ScanItem) : String → Option InvoiceData :=
  fun i => ((items.map shItem).find? fun it => it.id = i).bind f

/-- The item the per-message fetch closure produces for a message when body
and attachments fetch cleanly, `none` when either oracle throws; it does
not depend on the store. -/
def itemTry (env : ScanEnv) (m : GmailMessage) : Option ScanItem :=
  match env.getMessageBody m with
  | .error _ => none
  | .ok body =>
    match env.getAttachments m with
    | .error _ => none
    | .ok ratts =>
      some ⟨m.id, (findHeaderValue (headersOf m) "Subject").getD "No Subject",
        body, shapeAttachments ratts, m⟩

/-- Every messageId key present in `s` is present in `t` (stores only grow
their key set along a scan). -/
def midLe (s t : Store) : Prop :=
  ∀ x, hasMid s x = true → hasMid t x = true

/-- A fetched message is settled with respect to a store: re-processing it
against that store cannot insert a row.  Either it is invalid (filtered
out), or its fetch fails and a row with its id already exists (the inline
error upsert updates in place), or its analysis is missing or rejected (no
create is attempted), or a row with its id already exists (the create hits
the uniqueness constraint). -/
def fullSettled (env : ScanEnv) (f : BatchEmailItem → Option InvoiceData)
    (s : Store) (m : GmailMessage) : Prop :=
  isValidGmailMessage m = false ∨
  match itemTry env m with
  | none => hasMid s m.id = true
  | some it =>
    match f (shItem it) with
    | none => True
    | some a =>
      (jsTruthy a.error).isSome = true ∨ a.isInvoice = false ∨
        a.confidence < confidenceThreshold ∨ hasMid s m.id = true

/-- A message stub is settled with respect to a store: a second scan over
that store cannot insert a row while handling it.  Either its id is falsy
(skipped by the filter loop), or its (account, message-id) row exists (the
existence check skips it), or its full fetch fails and a row with its id
exists (the final error transaction updates in place), or the fetched
message is settled. -/
def msgSettled (env : ScanEnv) (f : BatchEmailItem → Option InvoiceData)
    (acc : String) (s : Store) (m : GmailMessage) : Prop :=
  m.id = "" ∨ hasAccMid s acc m.id = true ∨
  match env.getMessage m.id with
  | .error _ => hasMid s m.id = true
  | .ok full => fullSettled env f s full

/-- A one-stub search result for the idempotence witness. -/
def c2Msg : GmailMessage :=
  ⟨"m1", "t1", none, none⟩

/-- A concrete deterministic scan environment for the idempotence witness:
the provider returns a message carrying the requested id, fetches succeed,
and the service accepts every item. -/
def c2Env : ScanEnv where
  getMessage := fun i => .ok ⟨i, "t1", none, none⟩
  getMessageBody := fun _ => .ok "Invoice body"
  getAttachments := fun _ => .ok []
  analyzeBatch := perItemAnalyze fun _ => some demoAnalysisOK

/-! # Theorems

First the shared infrastructure: closure of store predicates under the two
primitives and hence under whole scans; then the claims C1–C10 in order. -/

/-- A store predicate closed under successful creates and under upserts
with key-preserving update payloads.  Every store mutation the orchestrator
performs is one of these two (or leaves the store unchanged). -/
structure PrimClosed (P : Store → Prop) : Prop where
  create : ∀ s s' r, P s → prismaInvoiceCreate s r = some s' → P s'
  upsert : ∀ s s' mid upd r, keysFixed upd → P s → prismaInvoiceUpsert s mid upd r = some s' → P s'

theorem hasMid_eq_false_iff (s : Store) (mid : String) :
    hasMid s mid = false ↔ ∀ r ∈ s, r.messageId ≠ mid := by
  simp [hasMid]

theorem prismaInvoiceCreate_eq_some (s s' : Store) (r : Invoice)
    (h : prismaInvoiceCreate s r = some s') :
    s' = s ++ [r] ∧ hasMid s r.messageId = false := by
  unfold prismaInvoiceCreate at h
  by_cases hc : (hasMid s r.messageId || hasAccMid s r.accountId r.messageId) = true
  · simp [hc] at h
  · simp [hc] at h
    simp only [Bool.or_eq_true, not_or, Bool.not_eq_true] at hc
    exact ⟨h.symm, hc.1⟩

theorem keysFixed_preserves_pairwise
    (R : Invoice → Invoice → Prop)
    (hR : ∀ x y x' y', x'.accountId = x.accountId → x'.messageId = x.messageId →
      y'.accountId = y.accountId → y'.messageId = y.messageId → R x y → R x' y')
    (s : Store) (mid : String) (upd : Invoice → Invoice) (hk : keysFixed upd)
    (h : s.Pairwise R) :
    (s.map fun row => if row.messageId = mid then upd row else row).Pairwise R := by
  rw [List.pairwise_map]
  refine h.imp_of_mem ?_
  intro a b _ _ hab
  by_cases ha : a.messageId = mid <;> by_cases hb : b.messageId = mid <;>
    simp only [ha, hb, if_pos, if_neg, if_true, if_false] <;>
    first
      | exact hab
      | exact hR a b _ _ (hk a).1 (hk a).2 rfl rfl hab
      | exact hR a b _ _ rfl rfl (hk b).1 (hk b).2 hab
      | exact hR a b _ _ (hk a).1 (hk a).2 (hk b).1 (hk b).2 hab

theorem accMidUnique_create (s s' : Store) (r : Invoice)
    (hp : AccMidUnique s) (hc : prismaInvoiceCreate s r = some s') :
    AccMidUnique s' := by
  obtain ⟨rfl, hfresh⟩ := prismaInvoiceCreate_eq_some s s' r hc
  rw [hasMid_eq_false_iff] at hfresh
  unfold AccMidUnique at *
  rw [List.pairwise_append]
  refine ⟨hp, List.pairwise_singleton _ _, ?_⟩
  intro x hx y hy
  simp only [List.mem_singleton] at hy
  subst hy
  intro ⟨_, hmid⟩
  exact hfresh x hx hmid

theorem midUnique_create (s s' : Store) (r : Invoice)
    (hp : MidUnique s) (hc : prismaInvoiceCreate s r = some s') :
    MidUnique s' := by
  obtain ⟨rfl, hfresh⟩ := prismaInvoiceCreate_eq_some s s' r hc
  rw [hasMid_eq_false_iff] at hfresh
  unfold MidUnique at *
  rw [List.pairwise_append]
  refine ⟨hp, List.pairwise_singleton _ _, ?_⟩
  intro x hx y hy
  simp only [List.mem_singleton] at hy
  subst hy
  exact hfresh x hx

theorem primClosed_AccMidUnique : PrimClosed AccMidUnique := by
  constructor
  · exact accMidUnique_create
  · intro s s' mid upd r hk hp hu
    unfold prismaInvoiceUpsert at hu
    by_cases hm : hasMid s mid = true
    · simp only [hm, if_true] at hu
      obtain rfl := Option.some.inj hu
      exact keysFixed_preserves_pairwise _
        (by intro x y x' y' h1 h2 h3 h4 hxy; rw [h1, h2, h3, h4]; exact hxy)
        s mid upd hk hp
    · rw [Bool.not_eq_true] at hm
      simp only [hm, Bool.false_eq_true, if_false] at hu
      exact accMidUnique_create s s' r hp hu

theorem primClosed_MidUnique : PrimClosed MidUnique := by
  constructor
  · exact midUnique_create
  · intro s s' mid upd r hk hp hu
    unfold prismaInvoiceUpsert at hu
    by_cases hm : hasMid s mid = true
    · simp only [hm, if_true] at hu
      obtain rfl := Option.some.inj hu
      exact keysFixed_preserves_pairwise _
        (by intro x y x' y' h1 h2 h3 h4 hxy; rw [h2, h4]; exact hxy)
        s mid upd hk hp
    · rw [Bool.not_eq_true] at hm
      simp only [hm, Bool.false_eq_true, if_false] at hu
      exact midUnique_create s s' r hp hu

theorem getD_create_closed (P : Store → Prop) (h : PrimClosed P) (s : Store)
    (r : Invoice) (hp : P s) : P ((prismaInvoiceCreate s r).getD s) := by
  cases heq : prismaInvoiceCreate s r with
  | none => simpa using hp
  | some s' => simpa using h.create s s' r hp heq

theorem getD_upsert_closed (P : Store → Prop) (h : PrimClosed P) (s : Store)
    (mid : String) (upd : Invoice → Invoice) (r : Invoice) (hk : keysFixed upd)
    (hp : P s) : P ((prismaInvoiceUpsert s mid upd r).getD s) := by
  cases heq : prismaInvoiceUpsert s mid upd r with
  | none => simpa using hp
  | some s' => simpa using h.upsert s s' mid upd r hk hp heq

theorem fetchScanItemFail_store (P : Store → Prop) (h : PrimClosed P)
    (env : ScanEnv) (now : Nat) (acc usr : String) (store : Store)
    (m : GmailMessage) (e : String) (hp : P store) :
    P (fetchScanItemFail env now acc usr store m e).1 := by
  unfold fetchScanItemFail
  exact getD_upsert_closed P h store m.id _ _ (fun r => ⟨rfl, rfl⟩) hp

theorem fetchScanItem_store (P : Store → Prop) (h : PrimClosed P)
    (env : ScanEnv) (now : Nat) (acc usr : String) (store : Store)
    (m : GmailMessage) (hp : P store) :
    P (fetchScanItem env now acc usr store m).1 := by
  unfold fetchScanItem
  cases env.getMessageBody m with
  | error e => exact fetchScanItemFail_store P h env now acc usr store m e hp
  | ok body =>
    cases env.getAttachments m with
    | error e => exact fetchScanItemFail_store P h env now acc usr store m e hp
    | ok ratts => exact hp

theorem fetchChunk_store (P : Store → Prop) (h : PrimClosed P)
    (env : ScanEnv) (now : Nat) (acc usr : String) (l : List GmailMessage) :
    ∀ store : Store, P store → P (fetchChunk env now acc usr store l).1 := by
  induction l with
  | nil => intro store hp; simpa [fetchChunk] using hp
  | cons m rest ih =>
    intro store hp
    rcases hfs : fetchScanItem env now acc usr store m with ⟨store₁, entry, item⟩
    have h₁ : P store₁ := by
      have := fetchScanItem_store P h env now acc usr store m hp
      rwa [hfs] at this
    rcases hfc : fetchChunk env now acc usr store₁ rest with ⟨store₂, entries, items⟩
    have h₂ : P store₂ := by
      have := ih store₁ h₁
      rwa [hfc] at this
    simpa [fetchChunk, hfs, hfc] using h₂

theorem createInvoiceStep_store (P : Store → Prop) (h : PrimClosed P)
    (store : Store) (row : Invoice) (hp : P store) :
    P (createInvoiceStep store row).1 := by
  unfold createInvoiceStep
  cases heq : prismaInvoiceCreate store row with
  | none => exact hp
  | some store' => exact h.create store store' row hp heq

theorem scanItemStep_store (P : Store → Prop) (h : PrimClosed P)
    (now : Nat) (acc usr : String) (amap : String → Option InvoiceData)
    (store : Store) (item : ScanItem) (hp : P store) :
    P (scanItemStep now acc usr amap store item).1 := by
  unfold scanItemStep
  split
  · exact hp
  · split
    · exact hp
    · split
      · exact hp
      · split
        · exact hp
        · exact createInvoiceStep_store P h store _ hp

theorem runItems_store (P : Store → Prop) (h : PrimClosed P)
    (now : Nat) (acc usr : String) (amap : String → Option InvoiceData)
    (items : List ScanItem) :
    ∀ (store : Store) (counts : ScanCounts), P store →
      P (runItems now acc usr amap store counts items).1 := by
  induction items with
  | nil => intro store counts hp; simpa [runItems] using hp
  | cons item rest ih =>
    intro store counts hp
    rcases hs : scanItemStep now acc usr amap store item with ⟨store₁, inc⟩
    have h₁ : P store₁ := by
      have := scanItemStep_store P h now acc usr amap store item hp
      rwa [hs] at this
    simpa [runItems, hs] using ih store₁ (addCounts counts inc) h₁

theorem processChunk_store (P : Store → Prop) (h : PrimClosed P)
    (env : ScanEnv) (now : Nat) (acc usr : String) (b : BatchAcc)
    (chunk : List GmailMessage) (hp : P b.store) :
    P (chunkStore (processChunk env now acc usr b chunk)) := by
  unfold processChunk
  rcases hfc : fetchChunk env now acc usr b.store (chunk.filter isValidGmailMessage)
    with ⟨store₁, entries, items⟩
  have h₁ : P store₁ := by
    have := fetchChunk_store P h env now acc usr (chunk.filter isValidGmailMessage) b.store hp
    rwa [hfc] at this
  simp only [hfc]
  split
  · exact h₁
  · split
    · rename_i amap heq
      have key := runItems_store P h now acc usr amap items store₁
        ⟨b.counts.processed, b.counts.skipped, b.counts.errors + entries.length⟩ h₁
      rcases hr : runItems now acc usr amap store₁
          ⟨b.counts.processed, b.counts.skipped, b.counts.errors + entries.length⟩
          items with ⟨store₂, counts₂⟩
      rw [hr] at key
      simpa [hr, chunkStore] using key
    · simpa [chunkStore] using getD_create_closed P h store₁ _ h₁

theorem batchLoop_store (P : Store → Prop) (h : PrimClosed P)
    (env : ScanEnv) (now : Nat) (acc usr : String)
    (chunks : List (List GmailMessage)) :
    ∀ b : BatchAcc, P b.store →
      P (chunkStore (batchLoop env now acc usr b chunks)) := by
  induction chunks with
  | nil => intro b hp; simpa [batchLoop, chunkStore] using hp
  | cons chunk rest ih =>
    intro b hp
    have hc := processChunk_store P h env now acc usr b chunk hp
    simp only [batchLoop]
    cases hpc : processChunk env now acc usr b chunk with
    | done b₁ =>
      rw [hpc] at hc
      exact ih b₁ hc
    | aborted b₁ =>
      rw [hpc] at hc
      simpa [chunkStore] using hc

theorem applyErrUpsertsGo_closed (P : Store → Prop) (h : PrimClosed P)
    (acc usr : String) (now : Nat) (entries : List ErrEntry) :
    ∀ s s₁ : Store, applyErrUpsertsGo acc usr now s entries = some s₁ →
      P s → P s₁ := by
  induction entries with
  | nil =>
    intro s s₁ heq hp
    simp only [applyErrUpsertsGo, Option.some.injEq] at heq
    rwa [← heq]
  | cons en rest ih =>
    intro s s₁ heq hp
    simp only [applyErrUpsertsGo] at heq
    cases hu : prismaInvoiceUpsert s en.messageId (errUpsertUpd en now)
        (errUpsertRow acc usr now en) with
    | none => rw [hu] at heq; exact absurd heq (by simp)
    | some s₂ =>
      rw [hu] at heq
      exact ih s₂ s₁ heq
        (h.upsert s s₂ en.messageId (errUpsertUpd en now) (errUpsertRow acc usr now en)
          (fun r => ⟨rfl, rfl⟩) hp hu)

theorem applyErrUpserts_store (P : Store → Prop) (h : PrimClosed P)
    (acc usr : String) (now : Nat) (s : Store) (entries : List ErrEntry)
    (hp : P s) : P (applyErrUpserts acc usr now s entries) := by
  unfold applyErrUpserts
  split
  · exact hp
  · cases heq : applyErrUpsertsGo acc usr now s entries with
    | none => simpa using hp
    | some s₁ => simpa using applyErrUpsertsGo_closed P h acc usr now entries s s₁ heq hp

theorem scanEmailsFinish_store (P : Store → Prop) (h : PrimClosed P)
    (acc usr : String) (now : Nat) (npt : Option String) (b : BatchAcc)
    (hp : P b.store) : P (scanEmailsFinish acc usr now npt b).1 := by
  unfold scanEmailsFinish
  exact applyErrUpserts_store P h acc usr now b.store b.errEntries hp

theorem scanEmailsRun_store (P : Store → Prop) (h : PrimClosed P)
    (env : ScanEnv) (now : Nat) (acc usr : String) (npt : Option String)
    (store : Store) (p1 : Phase1Out) (hp : P store) :
    P (scanEmailsRun env now acc usr npt store p1).1 := by
  unfold scanEmailsRun
  split
  · exact scanEmailsFinish_store P h acc usr now npt _ hp
  · have hb := batchLoop_store P h env now acc usr (chunksOf 5 p1.toProcess)
      ⟨store, ⟨0, p1.skipped, p1.errors⟩, p1.errEntries⟩ hp
    cases hbl : batchLoop env now acc usr
        ⟨store, ⟨0, p1.skipped, p1.errors⟩, p1.errEntries⟩
        (chunksOf 5 p1.toProcess) with
    | done b =>
      rw [hbl] at hb
      simp only [hbl, chunkStore] at *
      exact scanEmailsFinish_store P h acc usr now npt b hb
    | aborted b =>
      rw [hbl] at hb
      simp only [hbl, chunkStore] at *
      exact hb

theorem scanEmails_store (P : Store → Prop) (h : PrimClosed P)
    (env : ScanEnv) (now : Nat) (acc usr : String)
    (messages : List GmailMessage) (npt : Option String) (force : Bool)
    (store : Store) (hp : P store) :
    P (scanEmails env now acc usr messages npt force store).1 := by
  unfold scanEmails
  split
  · exact hp
  · exact scanEmailsRun_store P h env now acc usr npt store _ hp

theorem orchOp_closed (P : Store → Prop) (h : PrimClosed P)
    (s s' : Store) (hop : OrchOp s s') (hp : P s) : P s' := by
  cases hop with
  | createOk r heq => exact h.create _ _ r hp heq
  | createFail r heq => exact hp
  | upsertOk mid upd r hk heq => exact h.upsert _ _ mid upd r hk hp heq
  | upsertFail mid upd r heq => exact hp
  | scan env now acc usr messages npt force =>
    exact scanEmails_store P h env now acc usr messages npt force s hp

theorem orchReach_closed (P : Store → Prop) (h : PrimClosed P)
    (s s' : Store) (hr : OrchReach s s') (hp : P s) : P s' := by
  induction hr with
  | refl => exact hp
  | tail hreach hop ih => exact orchOp_closed P h _ _ hop ih

theorem length_filter_le_one {α : Type} (p : α → Bool) (s : List α)
    (h : s.Pairwise fun x y => ¬(p x = true ∧ p y = true)) :
    (s.filter p).length ≤ 1 := by
  induction s with
  | nil => simp
  | cons a t ih =>
    rw [List.pairwise_cons] at h
    cases hpa : p a with
    | false => simpa [List.filter_cons, hpa] using ih h.2
    | true =>
      have ht : t.filter p = [] := by
        rw [List.filter_eq_nil_iff]
        intro x hx hpx
        exact h.1 x hx ⟨hpa, hpx⟩
      simp [List.filter_cons, hpa, ht]

/-- C1: for every account and every source message id, at most one Invoice
record with that (account, message-id) pair exists in every reachable state
of the store: starting from any store satisfying the compound-uniqueness
invariant (e.g. the empty store), no sequence of orchestrator operations
(create, upsert, scan) ever produces two Invoice records sharing the same
(accountId, messageId). -/
theorem C1_atMostOne_invoice_per_account_messageId (S S' : Store)
    (h : AccMidUnique S) (hr : OrchReach S S') (acc mid : String) :
    pairCount S' acc mid ≤ 1 := by
  have h' : AccMidUnique S' := orchReach_closed _ primClosed_AccMidUnique S S' hr h
  unfold pairCount
  apply length_filter_le_one
  refine h'.imp ?_
  intro a b hab hpq
  obtain ⟨hpa, hpb⟩ := hpq
  simp only [Bool.and_eq_true, decide_eq_true_eq] at hpa hpb
  exact hab ⟨hpa.1.trans hpb.1.symm, hpa.2.trans hpb.2.symm⟩

theorem C1_witness :
    AccMidUnique ([] : Store) ∧ pairCount [demoInvoice] "acc1" "m1" ≤ 1 :=
  ⟨by decide,
    C1_atMostOne_invoice_per_account_messageId [] [demoInvoice] (by decide)
      (OrchReach.tail OrchReach.refl (OrchOp.createOk demoInvoice rfl))
      "acc1" "m1"⟩

/-- C9: every Invoice row's messageId is unique across the entire table —
across all accounts and users, not merely per (account, message-id): the
schema's global `messageId @unique` is preserved by every orchestrator
operation, so in every reachable state at most one row carries a given
message id, and the error-bookkeeping upserts, whose `where` clause is
keyed on messageId alone, can attach to at most one row regardless of
which account owns it. -/
theorem C9_messageId_unique_across_table (S S' : Store)
    (h : MidUnique S) (hr : OrchReach S S') (mid : String) :
    midCount S' mid ≤ 1 := by
  have h' : MidUnique S' := orchReach_closed _ primClosed_MidUnique S S' hr h
  unfold midCount
  apply length_filter_le_one
  refine h'.imp ?_
  intro a b hab hpq
  obtain ⟨hpa, hpb⟩ := hpq
  simp only [decide_eq_true_eq] at hpa hpb
  exact hab (hpa.trans hpb.symm)

theorem C9_witness :
    MidUnique ([] : Store) ∧ midCount [demoInvoice] "m1" ≤ 1 :=
  ⟨by decide,
    C9_messageId_unique_across_table [] [demoInvoice] (by decide)
      (OrchReach.tail OrchReach.refl (OrchOp.createOk demoInvoice rfl))
      "m1"⟩

/-- C3, counterexample: under forceRescan with message `m1` already
recorded for the account, re-classification accepts the message again and
the create hits the uniqueness constraint — and the scan counts it as an
error (`errors = 1`, `skipped = 0`), not as skipped as the claim states.
The scan does not abort (it returns normally with the page summary). -/
theorem C3_counterexample :
    scanEmails (scanEnvOf demoMessage "demo body" (.ok demoAmapOK)) 5
      "acc1" "u1" [demoMessage] none true [demoInvoice] =
      ([demoInvoice], ⟨0, 0, 1, false, none, none⟩) := by
  decide

/-- C3, amended: whenever an Invoice create fails with a unique-constraint
violation on (account, message-id) — in particular under forceRescan for a
message already recorded — the per-item catch swallows the exception and
the scan increments the error count (not the skipped count) and continues
with the remaining items of the sub-batch. -/
theorem C3_amended_unique_violation_is_error (now : Nat) (acc usr : String)
    (amap : String → Option InvoiceData) (store : Store) (item : ScanItem)
    (analysis : InvoiceData) (counts : ScanCounts) (rest : List ScanItem)
    (ha : amap item.id = some analysis)
    (herr : jsTruthy analysis.error = none)
    (hinv : analysis.isInvoice = true)
    (hconf : ¬(analysis.confidence < confidenceThreshold))
    (hdup : hasAccMid store acc item.id = true) :
    scanItemStep now acc usr amap store item = (store, ⟨0, 0, 1⟩) ∧
      runItems now acc usr amap store counts (item :: rest) =
        runItems now acc usr amap store (addCounts counts ⟨0, 0, 1⟩) rest := by
  have hstep : scanItemStep now acc usr amap store item = (store, ⟨0, 0, 1⟩) := by
    unfold scanItemStep
    rw [ha]
    simp only [herr, Option.isSome_none, Bool.false_eq_true, if_false, hinv,
      Bool.not_true, if_neg hconf]
    unfold createInvoiceStep prismaInvoiceCreate
    simp [hdup]
  refine ⟨hstep, ?_⟩
  simp only [runItems, hstep]

theorem C3_witness :
    demoAmapOK demoItem.id = some demoAnalysisOK ∧
    jsTruthy demoAnalysisOK.error = none ∧
    demoAnalysisOK.isInvoice = true ∧
    ¬(demoAnalysisOK.confidence < confidenceThreshold) ∧
    hasAccMid [demoInvoice] "acc1" demoItem.id = true ∧
    scanItemStep 5 "acc1" "u1" demoAmapOK [demoInvoice] demoItem =
      ([demoInvoice], ⟨0, 0, 1⟩) :=
  ⟨by decide, by decide, by decide, by decide, by decide,
    (C3_amended_unique_violation_is_error 5 "acc1" "u1" demoAmapOK
      [demoInvoice] demoItem demoAnalysisOK ⟨0, 0, 0⟩ []
      (by decide) (by decide) (by decide) (by decide) (by decide)).1⟩

/-- C4, counterexample: an extraction result whose `isInvoice` is false but
which also carries an error string is counted as an error (`errors = 1`,
`skipped = 0`), contradicting the claim that every result with
`isInvoice = false` is counted as skipped.  (No Invoice record is created,
as the claim also states.) -/
theorem C4_counterexample :
    demoAnalysisErr.isInvoice = false ∧
    scanEmails (scanEnvOf demoMessage "demo body" (.ok demoAmapErr)) 5
      "acc1" "u1" [demoMessage] none false [] =
      ([], ⟨0, 0, 1, false, none, none⟩) := by
  constructor
  · decide
  · decide

/-- C4, amended: for every extraction result that carries no error string
and whose `isInvoice` is false or whose confidence is below the acceptance
threshold (0.5 in the current revision), the orchestrator creates no
Invoice record for that message and counts it as skipped, not as an
error. -/
theorem C4_amended_low_confidence_skipped (now : Nat) (acc usr : String)
    (amap : String → Option InvoiceData) (store : Store) (item : ScanItem)
    (analysis : InvoiceData)
    (ha : amap item.id = some analysis)
    (herr : jsTruthy analysis.error = none)
    (hskip : analysis.isInvoice = false ∨ analysis.confidence < confidenceThreshold) :
    scanItemStep now acc usr amap store item = (store, ⟨0, 1, 0⟩) := by
  unfold scanItemStep
  rw [ha]
  simp only [herr, Option.isSome_none, Bool.false_eq_true, if_false]
  cases hinv : analysis.isInvoice with
  | false => simp
  | true =>
    have hconf : analysis.confidence < confidenceThreshold := by
      rcases hskip with h | h
      · rw [hinv] at h; exact absurd h (by simp)
      · exact h
    simp [hconf]

theorem cacheGet_of_find_none {α : Type} (c : CacheMap α) (key : String)
    (now : Nat) (h : (c.find? fun p => p.1 == key) = none) :
    cacheGet c key now = (c, none) := by
  unfold cacheGet
  rw [h]

theorem find?_cacheSet {α : Type} (c : CacheMap α) (key : String) (d : α)
    (t : Nat) :
    ((cacheSet c key d t).find? fun p => p.1 == key) = some (key, ⟨d, t⟩) := by
  unfold cacheSet
  rw [List.find?_append]
  have h1 : ((c.filter fun p => !(p.1 == key)).find? fun p => p.1 == key) = none := by
    rw [List.find?_eq_none]
    intro x hx
    have hm := List.mem_filter.mp hx
    simpa using hm.2
  rw [h1]
  simp [List.find?]

theorem cacheGet_cacheSet_fresh {α : Type} (c : CacheMap α) (key : String)
    (d : α) (t now : Nat) (h : now - t ≤ CACHE_TTL_MS) :
    cacheGet (cacheSet c key d t) key now = (cacheSet c key d t, some d) := by
  unfold cacheGet
  rw [find?_cacheSet]
  have hn : ¬(now - t > CACHE_TTL_MS) := by omega
  simp [hn]

theorem cacheGet_cacheSet_expired {α : Type} (c : CacheMap α) (key : String)
    (d : α) (t now : Nat) (h : now - t > CACHE_TTL_MS) :
    cacheGet (cacheSet c key d t) key now =
      ((cacheSet c key d t).filter fun p => !(p.1 == key), none) := by
  unfold cacheGet
  rw [find?_cacheSet]
  simp [h]

/-- A single-item call whose per-item cache lookup misses and whose
provider call succeeds: the request is issued, the shaped (and
regex-backfilled) result is returned and cached under the content+model
key with the current instant. -/
theorem analyzeWithModel_miss_ok (env : AIEnv) (t : Nat) (st : AIState)
    (content model processed : String) (ec : CacheMap InvoiceData)
    (resp : AIResponse)
    (hpre : env.pre content MAX_TOKENS_PER_EMAIL = processed)
    (hget : cacheGet st.emailCache (generateCacheKey processed model) t = (ec, none))
    (hlen : ¬(processed.length < 50))
    (hok : env.oracle processed model = .ok resp) :
    analyzeWithModel env t st content model false =
      ({ st with
          emailCache := cacheSet ec (generateCacheKey processed model)
            (applyRegexFallback env processed (shapeAIResponse resp)) t
          trace := st.trace ++ [.modelCall processed model] },
        applyRegexFallback env processed (shapeAIResponse resp)) := by
  unfold analyzeWithModel analyzeWithModelCore
  rw [hpre]
  simp only [hget]
  rw [if_neg hlen, hok]

/-- A single-item call whose per-item cache lookup hits (without touching
the cache): the cached payload is returned and the state — in particular
the trace of issued requests — is unchanged. -/
theorem analyzeWithModel_hit (env : AIEnv) (t : Nat) (st : AIState)
    (content model processed : String) (d : InvoiceData)
    (hpre : env.pre content MAX_TOKENS_PER_EMAIL = processed)
    (hhit : cacheGet st.emailCache (generateCacheKey processed model) t =
      (st.emailCache, some d)) :
    analyzeWithModel env t st content model false = (st, d) := by
  unfold analyzeWithModel analyzeWithModelCore
  rw [hpre]
  simp only [hhit]

/-- C5: for identical (content, model) pairs, after a first successful
single-item classify call, a second call within the 24-hour TTL issues no
remote model request and returns the cached result (the whole service
state, including the request trace, is unchanged); a call made after the
TTL has elapsed issues a fresh remote request. -/
theorem C5_classify_cache_ttl (env : AIEnv) (st : AIState)
    (content model processed : String) (resp : AIResponse) (t₀ t₁ t₂ : Nat)
    (hpre : env.pre content MAX_TOKENS_PER_EMAIL = processed)
    (hlen : ¬(processed.length < 50))
    (hmiss : (st.emailCache.find? fun p =>
      p.1 == generateCacheKey processed model) = none)
    (hok : env.oracle processed model = .ok resp)
    (hfresh : t₁ - t₀ ≤ CACHE_TTL_MS)
    (hexp : t₂ - t₀ > CACHE_TTL_MS) :
    (analyzeWithModel env t₀ st content model false).1.trace =
        st.trace ++ [.modelCall processed model] ∧
    analyzeWithModel env t₁ (analyzeWithModel env t₀ st content model false).1
        content model false = analyzeWithModel env t₀ st content model false ∧
    (analyzeWithModel env t₂ (analyzeWithModel env t₀ st content model false).1
        content model false).1.trace =
      (analyzeWithModel env t₀ st content model false).1.trace ++
        [.modelCall processed model] := by
  have h1 := analyzeWithModel_miss_ok env t₀ st content model processed
    st.emailCache resp hpre (cacheGet_of_find_none _ _ _ hmiss) hlen hok
  refine ⟨by rw [h1], ?_, ?_⟩
  · rw [h1]
    exact analyzeWithModel_hit env t₁ _ content model processed _ hpre
      (cacheGet_cacheSet_fresh st.emailCache (generateCacheKey processed model)
        _ t₀ t₁ hfresh)
  · rw [h1]
    rw [analyzeWithModel_miss_ok env t₂ _ content model processed _ resp hpre
      (cacheGet_cacheSet_expired st.emailCache (generateCacheKey processed model)
        _ t₀ t₂ hexp) hlen hok]

theorem C5_witness :
    (demoAIEnvOK.pre demoContent MAX_TOKENS_PER_EMAIL = demoContent) ∧
    (¬(demoContent.length < 50)) ∧
    ((emptyAIState.emailCache.find? fun p =>
      p.1 == generateCacheKey demoContent "gpt-3.5-turbo") = none) ∧
    (demoAIEnvOK.oracle demoContent "gpt-3.5-turbo" = .ok demoAIResponse) ∧
    (CACHE_TTL_MS - 0 ≤ CACHE_TTL_MS) ∧
    ((CACHE_TTL_MS + 1) - 0 > CACHE_TTL_MS) ∧
    analyzeWithModel demoAIEnvOK CACHE_TTL_MS
        (analyzeWithModel demoAIEnvOK 0 emptyAIState demoContent
          "gpt-3.5-turbo" false).1
        demoContent "gpt-3.5-turbo" false =
      analyzeWithModel demoAIEnvOK 0 emptyAIState demoContent
        "gpt-3.5-turbo" false :=
  ⟨rfl, by decide, rfl, rfl, by omega, by omega,
    (C5_classify_cache_ttl demoAIEnvOK emptyAIState demoContent
      "gpt-3.5-turbo" demoContent demoAIResponse 0 CACHE_TTL_MS
      (CACHE_TTL_MS + 1) rfl (by decide) rfl rfl (by omega) (by omega)).2.1⟩

/-- A single-item call whose per-item cache lookup misses and whose
provider call throws hands the error and the at-failure state (request
already traced) to the catch clause. -/
theorem analyzeWithModelCore_error (env : AIEnv) (t : Nat) (st : AIState)
    (content model processed : String) (err : AIError)
    (onError : AIError → AIState → AIState × InvoiceData)
    (hpre : env.pre content MAX_TOKENS_PER_EMAIL = processed)
    (hmiss : (st.emailCache.find? fun p =>
      p.1 == generateCacheKey processed model) = none)
    (hlen : ¬(processed.length < 50))
    (herr : env.oracle processed model = .error err) :
    analyzeWithModelCore env t st content model onError =
      onError err { st with trace := st.trace ++ [.modelCall processed model] } := by
  unfold analyzeWithModelCore
  rw [hpre]
  simp only [cacheGet_of_find_none _ _ _ hmiss]
  rw [if_neg hlen, herr]

/-- C6, counterexample: with a provider that always fails with the
transient `rate_limit_exceeded` code, the single retry is issued against
the same `gpt-3.5-turbo` model (both traced requests name the same model),
not a cheaper/alternate one; and both on failure of the retry and on a
non-transient error (a thrown value without a recognised code) the call
returns `getDefaultResponse()`, whose `error` field is `none` — no error is
recorded on the result, contradicting the claim. -/
theorem C6_counterexample :
    (analyzeWithModel demoAIEnvRate 0 emptyAIState demoContent
        "gpt-3.5-turbo" false).1.trace =
      [.modelCall demoContent "gpt-3.5-turbo",
       .modelCall demoContent "gpt-3.5-turbo"] ∧
    (analyzeWithModel demoAIEnvRate 0 emptyAIState demoContent
        "gpt-3.5-turbo" false).2 = getDefaultResponse ∧
    (analyzeWithModel demoAIEnvRate 0 emptyAIState demoContent
        "gpt-3.5-turbo" false).2.error = none ∧
    (analyzeWithModel demoAIEnvOther 0 emptyAIState demoContent
        "gpt-3.5-turbo" false).2.error = none := by
  decide

/-- C6, amended: when a single-item call on the default `gpt-3.5-turbo`
model fails with a transient provider error (rate-limit or server error)
and is not already a retry, the service re-issues the call exactly once —
against the same `gpt-3.5-turbo` model, not a cheaper one; on any other
error, and on failure of the retry, it returns the default not-an-invoice
response, which carries no error string (the error is logged, not recorded
on the result). -/
theorem C6_amended_retry_same_model (env : AIEnv) (st : AIState)
    (content processed : String) (t : Nat) (code : String)
    (hpre : env.pre content MAX_TOKENS_PER_EMAIL = processed)
    (hlen : ¬(processed.length < 50))
    (hmiss : (st.emailCache.find? fun p =>
      p.1 == generateCacheKey processed "gpt-3.5-turbo") = none)
    (herr : env.oracle processed "gpt-3.5-turbo" = .error ⟨some code⟩)
    (hcode : code = "rate_limit_exceeded" ∨ code = "server_error") :
    analyzeWithModel env t st content "gpt-3.5-turbo" false =
      ({ st with trace := st.trace ++
          [.modelCall processed "gpt-3.5-turbo",
           .modelCall processed "gpt-3.5-turbo"] },
        getDefaultResponse) ∧
    (∀ (model : String) (err : AIError),
      (st.emailCache.find? fun p =>
        p.1 == generateCacheKey processed model) = none →
      env.oracle processed model = .error err →
      ¬(model = "gpt-3.5-turbo" ∧
        (err.code = some "rate_limit_exceeded" ∨ err.code = some "server_error")) →
      analyzeWithModel env t st content model false =
        ({ st with trace := st.trace ++ [.modelCall processed model] },
          getDefaultResponse)) ∧
    getDefaultResponse.error = none := by
  refine ⟨?_, ?_, rfl⟩
  · unfold analyzeWithModel
    rw [analyzeWithModelCore_error env t st content "gpt-3.5-turbo" processed
      ⟨some code⟩ _ hpre hmiss hlen herr]
    rw [if_pos ⟨rfl, rfl, by rcases hcode with h | h <;> [left; right] <;> rw [h]⟩]
    rw [analyzeWithModelCore_error env t
      { st with trace := st.trace ++ [.modelCall processed "gpt-3.5-turbo"] }
      content "gpt-3.5-turbo" processed ⟨some code⟩ _ hpre hmiss hlen herr]
    simp
  · intro model err hmiss' herr' hcond
    unfold analyzeWithModel
    rw [analyzeWithModelCore_error env t st content model processed
      err _ hpre hmiss' hlen herr']
    rw [if_neg fun hc => hcond ⟨hc.2.1, hc.2.2⟩]

theorem C6_witness :
    (demoAIEnvRate.pre demoContent MAX_TOKENS_PER_EMAIL = demoContent) ∧
    (¬(demoContent.length < 50)) ∧
    ((emptyAIState.emailCache.find? fun p =>
      p.1 == generateCacheKey demoContent "gpt-3.5-turbo") = none) ∧
    (demoAIEnvRate.oracle demoContent "gpt-3.5-turbo" =
      .error ⟨some "rate_limit_exceeded"⟩) ∧
    analyzeWithModel demoAIEnvRate 7 emptyAIState demoContent
        "gpt-3.5-turbo" false =
      ({ emptyAIState with trace :=
          emptyAIState.trace ++
            [.modelCall demoContent "gpt-3.5-turbo",
             .modelCall demoContent "gpt-3.5-turbo"] },
        getDefaultResponse) :=
  ⟨rfl, by decide, rfl, rfl,
    (C6_amended_retry_same_model demoAIEnvRate emptyAIState demoContent
      demoContent 7 "rate_limit_exceeded" rfl (by decide) rfl rfl
      (Or.inl rfl)).1⟩

theorem cacheGet_of_find_some_fresh {α : Type} (c : CacheMap α) (key : String)
    (now : Nat) (d : α) (t : Nat)
    (hf : (c.find? fun p => p.1 == key) = some (key, ⟨d, t⟩))
    (hfr : now - t ≤ CACHE_TTL_MS) :
    cacheGet c key now = (c, some d) := by
  unfold cacheGet
  rw [hf]
  have hn : ¬(now - t > CACHE_TTL_MS) := by omega
  simp [hn]

theorem find?_filter_ne {α : Type} (key key' : String) (h : ¬(key' = key)) :
    ∀ c : CacheMap α,
      ((c.filter fun p => !(p.1 == key)).find? fun p => p.1 == key') =
        (c.find? fun p => p.1 == key') := by
  intro c
  induction c with
  | nil => rfl
  | cons x xs ih =>
    simp only [List.filter_cons]
    by_cases hx : x.1 = key
    · have hb : (x.1 == key) = true := by simp [hx]
      have hpx : (x.1 == key') = false := by
        simp only [beq_eq_false_iff_ne, ne_eq]
        intro hc
        exact h (hc.symm.trans hx)
      simp only [hb, Bool.not_true, Bool.false_eq_true, if_false, List.find?, hpx]
      exact ih
    · have hb : (x.1 == key) = false := by simp [hx]
      simp only [hb, Bool.not_false, if_true]
      cases hpx : (x.1 == key') with
      | true => simp [List.find?, hpx]
      | false => simp only [List.find?, hpx]; exact ih

theorem find?_cacheSet_ne {α : Type} (c : CacheMap α) (key key' : String)
    (d : α) (t : Nat) (h : ¬(key' = key)) :
    ((cacheSet c key d t).find? fun p => p.1 == key') =
      (c.find? fun p => p.1 == key') := by
  unfold cacheSet
  rw [List.find?_append, find?_filter_ne key key' h c]
  have hk : (key == key') = false := by
    simp only [beq_eq_false_iff_ne, ne_eq]
    intro hc
    exact h hc.symm
  cases hc : c.find? fun p => p.1 == key' with
  | some v => rfl
  | none => simp [List.find?, hk]

theorem splitCached_all_miss (now : Nat) (c : CacheMap InvoiceData)
    (emails : List BatchEmailItem)
    (h : ∀ e ∈ emails, (c.find? fun p => p.1 == emailKey e) = none) :
    splitCached now c emails = (c, [], emails) := by
  induction emails with
  | nil => rfl
  | cons e rest ih =>
    simp only [splitCached]
    rw [cacheGet_of_find_none c (emailKey e) now (h e (List.mem_cons_self e rest))]
    rw [ih fun e' he' => h e' (List.mem_cons_of_mem e he')]

theorem splitCached_all_hit (now : Nat) (c : CacheMap InvoiceData)
    (emails : List BatchEmailItem) (val : BatchEmailItem → InvoiceData)
    (ts : BatchEmailItem → Nat)
    (h : ∀ e ∈ emails,
      (c.find? fun p => p.1 == emailKey e) = some (emailKey e, ⟨val e, ts e⟩) ∧
      now - ts e ≤ CACHE_TTL_MS) :
    splitCached now c emails = (c, emails.map fun e => (e.id, val e), []) := by
  induction emails with
  | nil => rfl
  | cons e rest ih =>
    simp only [splitCached]
    rw [cacheGet_of_find_some_fresh c (emailKey e) now (val e) (ts e)
      (h e (List.mem_cons_self e rest)).1 (h e (List.mem_cons_self e rest)).2]
    rw [ih fun e' he' => h e' (List.mem_cons_of_mem e he')]
    rfl

theorem find?_id_of_nodup (chunk : List BatchEmailItem) (e : BatchEmailItem)
    (hN : (chunk.map fun x => x.id).Nodup) (he : e ∈ chunk) :
    (chunk.find? fun x => x.id == e.id) = some e := by
  induction chunk with
  | nil => cases he
  | cons x xs ih =>
    rcases List.mem_cons.mp he with rfl | hmem
    · simp [List.find?]
    · rw [List.map_cons, List.nodup_cons] at hN
      have hx : (x.id == e.id) = false := by
        simp only [beq_eq_false_iff_ne, ne_eq]
        intro hEq
        exact hN.1 (hEq ▸ List.mem_map_of_mem (fun b => b.id) hmem)
      simp only [List.find?, hx]
      exact ih hN.2 hmem

theorem cacheIndividual_map (now : Nat) (chunk : List BatchEmailItem)
    (g : BatchEmailItem → InvoiceData)
    (hN : (chunk.map fun x => x.id).Nodup) :
    ∀ (sub : List BatchEmailItem) (c : CacheMap InvoiceData),
      (∀ e ∈ sub, e ∈ chunk) →
      cacheIndividual now chunk (sub.map fun e => (e.id, g e)) c =
        sub.foldl (fun c' e => cacheSet c' (emailKey e) (g e) now) c := by
  intro sub
  induction sub with
  | nil => intro c _; rfl
  | cons e rest ih =>
    intro c hsub
    simp only [List.map_cons, cacheIndividual, List.foldl_cons]
    rw [find?_id_of_nodup chunk e hN (hsub e (List.mem_cons_self e rest))]
    exact ih _ fun e' he' => hsub e' (List.mem_cons_of_mem e he')

theorem find?_foldl_cacheSet_preserve (now : Nat)
    (g : BatchEmailItem → InvoiceData) (k : String) :
    ∀ (sub : List BatchEmailItem) (c : CacheMap InvoiceData),
      (∀ e' ∈ sub, ¬(k = emailKey e')) →
      ((sub.foldl (fun c' e' => cacheSet c' (emailKey e') (g e') now) c).find?
          fun p => p.1 == k) =
        (c.find? fun p => p.1 == k) := by
  intro sub
  induction sub with
  | nil => intro c _; rfl
  | cons x xs ih =>
    intro c hk
    simp only [List.foldl_cons]
    rw [ih _ fun e' he' => hk e' (List.mem_cons_of_mem x he')]
    exact find?_cacheSet_ne c (emailKey x) k (g x) now
      (hk x (List.mem_cons_self x xs))

theorem find?_foldl_cacheSet (now : Nat) (g : BatchEmailItem → InvoiceData) :
    ∀ (sub : List BatchEmailItem) (c : CacheMap InvoiceData)
      (e : BatchEmailItem), e ∈ sub → (sub.map emailKey).Nodup →
      ((sub.foldl (fun c' e' => cacheSet c' (emailKey e') (g e') now) c).find?
          fun p => p.1 == emailKey e) =
        some (emailKey e, ⟨g e, now⟩) := by
  intro sub
  induction sub with
  | nil => intro c e he; cases he
  | cons x xs ih =>
    intro c e he hN
    rw [List.map_cons, List.nodup_cons] at hN
    simp only [List.foldl_cons]
    rcases List.mem_cons.mp he with rfl | hmem
    · rw [find?_foldl_cacheSet_preserve now g (emailKey e) xs _
        fun e' he' hk => hN.1 (hk ▸ List.mem_map_of_mem emailKey he')]
      exact find?_cacheSet c (emailKey e) (g e) now
    · exact ih _ e hmem hN.2

theorem mergeAssoc_nil_right (a : List (String × InvoiceData)) :
    mergeAssoc a [] = a := by
  simp [mergeAssoc, lookupA]

theorem mergeAssoc_nil_left (b : List (String × InvoiceData)) :
    mergeAssoc [] b = b := by
  simp only [mergeAssoc, List.map_nil, List.nil_append]
  rw [List.filter_eq_self.mpr]
  intro p _
  simp [lookupA]

theorem chunksOf_eq_single {α : Type} (n : Nat) (l : List α) (hne : l ≠ [])
    (hlen : l.length ≤ n) : chunksOf n l = [l] := by
  cases l with
  | nil => cases hne rfl
  | cons x xs =>
    have h1 : xs.length ≤ n - 1 := by
      have := hlen
      simp only [List.length_cons] at this
      omega
    unfold chunksOf
    simp only [List.length_cons, chunksOfGo]
    rw [List.take_of_length_le h1, List.drop_eq_nil_of_le h1]
    simp [chunksOfGo]

/-- A fresh single-chunk batch (no item cached, batch prompt within the
token budget, batch key not cached) issues exactly one model request,
returns the normalized per-item map in item order, back-fills the per-item
cache and stores the batch-level entry. -/
theorem processBatch_fresh (env : AIEnv) (now f : Nat) (st : AIState)
    (emails : List BatchEmailItem) (amap : String → Option InvoiceData)
    (g : BatchEmailItem → InvoiceData)
    (hg : g = fun e => normalizeBatchResult ((amap e.id).getD getDefaultResponse))
    (hne : emails ≠ [])
    (hidN : (emails.map fun x => x.id).Nodup)
    (hmiss : ∀ e ∈ emails, (st.emailCache.find? fun p => p.1 == emailKey e) = none)
    (htok : ¬(batchTokens env emails > MAX_TOKENS_PER_BATCH))
    (hbmiss : (st.responseCache.find? fun p =>
      p.1 == generateCacheKey (buildBatchPrompt env emails) "gpt-3.5-turbo") = none)
    (hok : env.batchOracle (buildBatchPrompt env emails) = .ok amap) :
    processBatch env now (f + 1) st emails =
      some
        ({ st with
            emailCache := emails.foldl
              (fun c' e => cacheSet c' (emailKey e) (g e) now) st.emailCache
            responseCache := cacheSet st.responseCache
              (generateCacheKey (buildBatchPrompt env emails) "gpt-3.5-turbo")
              (emails.map fun e => (e.id, g e)) now
            trace := st.trace ++
              [.modelCall (buildBatchPrompt env emails) "gpt-3.5-turbo"] },
          emails.map fun e => (e.id, g e)) := by
  subst hg
  have hie : emails.isEmpty = false := by
    cases emails with
    | nil => cases hne rfl
    | cons x xs => rfl
  simp only [processBatch]
  rw [splitCached_all_miss now st.emailCache emails hmiss]
  simp only [hie, Bool.false_eq_true, if_false, if_neg htok,
    cacheGet_of_find_none st.responseCache _ now hbmiss, hok]
  rw [cacheIndividual_map now emails _ hidN emails st.emailCache fun e he => he]
  rw [mergeAssoc_nil_right]

/-- A batch each of whose items is answered by a fresh per-item cache
entry returns the cached map in item order and leaves the service state —
in particular the trace and the batch-level cache — untouched. -/
theorem processBatch_all_cached (env : AIEnv) (now f : Nat) (st : AIState)
    (emails : List BatchEmailItem) (val : BatchEmailItem → InvoiceData)
    (ts : BatchEmailItem → Nat)
    (h : ∀ e ∈ emails, (st.emailCache.find? fun p => p.1 == emailKey e) =
        some (emailKey e, ⟨val e, ts e⟩) ∧ now - ts e ≤ CACHE_TTL_MS) :
    processBatch env now (f + 1) st emails =
      some (st, emails.map fun e => (e.id, val e)) := by
  simp only [processBatch]
  rw [splitCached_all_hit now st.emailCache emails val ts h]
  rfl

/-- classifyBatch on a batch of at most BATCH_SIZE items is a single
processBatch call. -/
theorem analyzeBatchEmailContent_single (env : AIEnv) (now fuel : Nat)
    (st : AIState) (emails : List BatchEmailItem)
    (hne : emails ≠ []) (hlen : emails.length ≤ BATCH_SIZE)
    (st' : AIState) (r' : List (String × InvoiceData))
    (hpb : processBatch env now fuel st emails = some (st', r')) :
    analyzeBatchEmailContent env now fuel st emails = some (st', r') := by
  have hie : emails.isEmpty = false := by
    cases emails with
    | nil => cases hne rfl
    | cons x xs => rfl
  unfold analyzeBatchEmailContent
  rw [hie]
  simp only [Bool.false_eq_true, if_false]
  rw [chunksOf_eq_single BATCH_SIZE emails hne hlen]
  simp only [analyzeBatchChunks, hpb, mergeAssoc_nil_left]

/-- C7, counterexample: a second classifyBatch invocation with the
identical batch composition does return the same per-item result map and
issues no model request — but it is not short-circuited by the batch-level
cache entry: the second invocation returns the first invocation's state
unchanged, and the only trace event ever recorded is the first
invocation's single model call; no `batchCacheHit` event exists.  (It is
the per-item cache entries, back-filled by the first invocation, that
serve every item, so the batch-level branch is never reached.) -/
theorem C7_counterexample :
    analyzeBatchEmailContent demoBatchEnv 0 1 emptyAIState [demoEmail] =
      some demoRun1 ∧
    analyzeBatchEmailContent demoBatchEnv 0 1 demoRun1.1 [demoEmail] =
      some demoRun1 ∧
    demoRun1.1.trace =
      [.modelCall (buildBatchPrompt demoBatchEnv [demoEmail]) "gpt-3.5-turbo"] := by
  refine ⟨?_, ?_, ?_⟩ <;> decide

/-- C7, amended: when classifyBatch is invoked a second time within the
TTL with an identical batch composition (same items, same order, all
uncached at the first invocation), the second invocation is
short-circuited by the per-item cache entries back-filled by the first
invocation — the batch-level cache entry is never consulted — and it
issues no model request and returns the same per-item result map and the
same service state as the first invocation, whose trace holds the single
model call of the first run. -/
theorem C7_amended_second_call_served_by_item_cache
    (env : AIEnv) (t₁ t₂ f : Nat) (st st₁ : AIState)
    (emails : List BatchEmailItem) (r₁ : List (String × InvoiceData))
    (amap : String → Option InvoiceData)
    (hne : emails ≠ [])
    (hlen : emails.length ≤ BATCH_SIZE)
    (hidN : (emails.map fun x => x.id).Nodup)
    (hkeyN : (emails.map emailKey).Nodup)
    (hmiss : ∀ e ∈ emails, (st.emailCache.find? fun p => p.1 == emailKey e) = none)
    (htok : ¬(batchTokens env emails > MAX_TOKENS_PER_BATCH))
    (hbmiss : (st.responseCache.find? fun p =>
      p.1 == generateCacheKey (buildBatchPrompt env emails) "gpt-3.5-turbo") = none)
    (hok : env.batchOracle (buildBatchPrompt env emails) = .ok amap)
    (httl : t₂ - t₁ ≤ CACHE_TTL_MS)
    (hrun1 : analyzeBatchEmailContent env t₁ (f + 1) st emails = some (st₁, r₁)) :
    analyzeBatchEmailContent env t₂ (f + 1) st₁ emails = some (st₁, r₁) ∧
    st₁.trace = st.trace ++
      [.modelCall (buildBatchPrompt env emails) "gpt-3.5-turbo"] := by
  have hfresh := processBatch_fresh env t₁ f st emails amap
    (fun e => normalizeBatchResult ((amap e.id).getD getDefaultResponse)) rfl
    hne hidN hmiss htok hbmiss hok
  have h1 := analyzeBatchEmailContent_single env t₁ (f + 1) st emails hne hlen
    _ _ hfresh
  rw [h1] at hrun1
  have heq := Option.some.inj hrun1
  have hst : st₁ = { st with
      emailCache := emails.foldl
        (fun c' e => cacheSet c' (emailKey e)
          (normalizeBatchResult ((amap e.id).getD getDefaultResponse)) t₁)
        st.emailCache
      responseCache := cacheSet st.responseCache
        (generateCacheKey (buildBatchPrompt env emails) "gpt-3.5-turbo")
        (emails.map fun e =>
          (e.id, normalizeBatchResult ((amap e.id).getD getDefaultResponse))) t₁
      trace := st.trace ++
        [.modelCall (buildBatchPrompt env emails) "gpt-3.5-turbo"] } :=
    (congrArg Prod.fst heq).symm
  have hr : r₁ = emails.map fun e =>
      (e.id, normalizeBatchResult ((amap e.id).getD getDefaultResponse)) :=
    (congrArg Prod.snd heq).symm
  constructor
  · have hhit : ∀ e ∈ emails,
        (st₁.emailCache.find? fun p => p.1 == emailKey e) =
          some (emailKey e,
            ⟨normalizeBatchResult ((amap e.id).getD getDefaultResponse), t₁⟩) ∧
        t₂ - t₁ ≤ CACHE_TTL_MS := by
      intro e he
      refine ⟨?_, httl⟩
      rw [hst]
      exact find?_foldl_cacheSet t₁ _ emails st.emailCache e he hkeyN
    have h2 := processBatch_all_cached env t₂ f st₁ emails
      (fun e => normalizeBatchResult ((amap e.id).getD getDefaultResponse))
      (fun _ => t₁) hhit
    rw [← hr] at h2
    exact analyzeBatchEmailContent_single env t₂ (f + 1) st₁ emails hne hlen
      _ _ h2
  · rw [hst]

theorem C7_witness :
    ([demoEmail] ≠ []) ∧
    ([demoEmail].length ≤ BATCH_SIZE) ∧
    (([demoEmail].map fun x => x.id).Nodup) ∧
    (([demoEmail].map emailKey).Nodup) ∧
    (∀ e ∈ [demoEmail],
      (emptyAIState.emailCache.find? fun p => p.1 == emailKey e) = none) ∧
    (¬(batchTokens demoBatchEnv [demoEmail] > MAX_TOKENS_PER_BATCH)) ∧
    analyzeBatchEmailContent demoBatchEnv 1 1 demoRun1.1 [demoEmail] =
      some (demoRun1.1, demoRun1.2) :=
  ⟨by decide, by decide, by decide, by decide, by decide, by decide,
    (C7_amended_second_call_served_by_item_cache demoBatchEnv 0 1 0
      emptyAIState demoRun1.1 [demoEmail] demoRun1.2
      (fun id => if id = "e1" then some demoAnalysisOK else none)
      (by decide) (by decide) (by decide) (by decide) (by decide) (by decide)
      rfl rfl (by decide) (by decide)).1⟩

theorem hasAccMid_eq_false (s : Store) (a mid : String)
    (h : hasMid s mid = false) : hasAccMid s a mid = false := by
  rw [hasMid_eq_false_iff] at h
  simp only [hasAccMid, List.any_eq_false, Bool.and_eq_true, decide_eq_true_eq,
    not_and]
  intro r hr _
  exact fun hm => h r hr hm

theorem fetchScanItem_ok (env : ScanEnv) (now : Nat) (acc usr : String)
    (store : Store) (m : GmailMessage) (body : String)
    (ratts : List RawAttachment)
    (hbody : env.getMessageBody m = .ok body)
    (hatts : env.getAttachments m = .ok ratts) :
    fetchScanItem env now acc usr store m =
      (store, none,
        some ⟨m.id, (findHeaderValue (headersOf m) "Subject").getD "No Subject",
          body, shapeAttachments ratts, m⟩) := by
  unfold fetchScanItem
  rw [hbody, hatts]

theorem fetchChunk_singleton (env : ScanEnv) (now : Nat) (acc usr : String)
    (store : Store) (m : GmailMessage) (body : String)
    (ratts : List RawAttachment)
    (hbody : env.getMessageBody m = .ok body)
    (hatts : env.getAttachments m = .ok ratts) :
    fetchChunk env now acc usr store [m] =
      (store, [],
        [⟨m.id, (findHeaderValue (headersOf m) "Subject").getD "No Subject",
          body, shapeAttachments ratts, m⟩]) := by
  unfold fetchChunk
  rw [fetchScanItem_ok env now acc usr store m body ratts hbody hatts]
  simp [fetchChunk]

theorem processChunk_singleton_throw (env : ScanEnv) (now : Nat)
    (acc usr : String) (b : BatchAcc) (m : GmailMessage) (e body : String)
    (ratts : List RawAttachment)
    (hvalid : isValidGmailMessage m = true)
    (hbody : env.getMessageBody m = .ok body)
    (hatts : env.getAttachments m = .ok ratts)
    (hfail : ∀ items, env.analyzeBatch items = .error e) :
    processChunk env now acc usr b [m] =
      .aborted ⟨(prismaInvoiceCreate b.store
          (scanErrorRow acc usr now ("Error in scanEmails: " ++ e))).getD b.store,
        ⟨b.counts.processed, b.counts.skipped, b.counts.errors + 1⟩,
        b.errEntries⟩ := by
  have hf := fetchChunk_singleton env now acc usr b.store m body ratts hbody hatts
  simp only [processChunk,
    show List.filter isValidGmailMessage [m] = [m] by simp [hvalid], hf, hfail]
  simp

/-- Helper: a one-message page whose fetches succeed but whose batch
classification throws makes scanEmails append the synthetic
`scan-error-<now>` row and return early with `hasMore = false` and the
error count incremented. -/
theorem scanEmails_singleton_batch_throw
    (env : ScanEnv) (now : Nat) (acc usr : String) (m : GmailMessage)
    (npt : Option String) (S : Store) (e body : String)
    (ratts : List RawAttachment)
    (hid : ¬(m.id = ""))
    (hvalid : isValidGmailMessage m = true)
    (hnorow : hasAccMid S acc m.id = false)
    (hfetch : env.getMessage m.id = .ok m)
    (hbody : env.getMessageBody m = .ok body)
    (hatts : env.getAttachments m = .ok ratts)
    (hfail : ∀ items, env.analyzeBatch items = .error e)
    (hfresh : hasMid S ("scan-error-" ++ toString now) = false) :
    scanEmails env now acc usr [m] npt false S =
      (S ++ [scanErrorRow acc usr now ("Error in scanEmails: " ++ e)],
        ⟨0, 0, 1, false, none, some []⟩) := by
  have hp1 : phase1 env acc false S now [m] = ⟨0, 0, [], [m]⟩ := by
    simp [phase1, hid, hnorow, hfetch]
  have hcreate : prismaInvoiceCreate S
      (scanErrorRow acc usr now ("Error in scanEmails: " ++ e)) =
      some (S ++ [scanErrorRow acc usr now ("Error in scanEmails: " ++ e)]) := by
    unfold prismaInvoiceCreate
    rw [show (scanErrorRow acc usr now ("Error in scanEmails: " ++ e)).messageId =
      "scan-error-" ++ toString now from rfl]
    rw [show (scanErrorRow acc usr now ("Error in scanEmails: " ++ e)).accountId =
      acc from rfl]
    rw [hfresh, hasAccMid_eq_false S acc _ hfresh]
    rfl
  have hchunk : chunksOf 5 [m] = [[m]] := rfl
  unfold scanEmails
  rw [if_neg (by simp)]
  rw [hp1]
  unfold scanEmailsRun
  rw [if_neg (by simp)]
  rw [hchunk]
  unfold batchLoop
  rw [processChunk_singleton_throw env now acc usr _ m e body ratts
    hvalid hbody hatts hfail]
  simp only [hcreate, Option.getD_some]

/-- C10: when an exception escapes the processing of a whole sub-batch,
scanEmails creates a new error Invoice whose messageId is the synthetic
string `scan-error-` followed by the current timestamp and returns early
with `hasMore = false`; because the messageId is freshly generated on every
occurrence, a second failing scan at a different timestamp adds a second
such row — the error-bookkeeping path is not idempotent. -/
theorem C10_scan_error_row_not_idempotent
    (env : ScanEnv) (t₁ t₂ : Nat) (acc usr : String) (m : GmailMessage)
    (npt : Option String) (S : Store) (e body : String)
    (ratts : List RawAttachment)
    (hid : ¬(m.id = ""))
    (hvalid : isValidGmailMessage m = true)
    (hfetch : env.getMessage m.id = .ok m)
    (hbody : env.getMessageBody m = .ok body)
    (hatts : env.getAttachments m = .ok ratts)
    (hfail : ∀ items, env.analyzeBatch items = .error e)
    (hnorow₁ : hasAccMid S acc m.id = false)
    (hfresh₁ : hasMid S ("scan-error-" ++ toString t₁) = false)
    (hnorow₂ :
      hasAccMid (S ++ [scanErrorRow acc usr t₁ ("Error in scanEmails: " ++ e)])
        acc m.id = false)
    (hfresh₂ :
      hasMid (S ++ [scanErrorRow acc usr t₁ ("Error in scanEmails: " ++ e)])
        ("scan-error-" ++ toString t₂) = false) :
    scanEmails env t₁ acc usr [m] npt false S =
      (S ++ [scanErrorRow acc usr t₁ ("Error in scanEmails: " ++ e)],
        ⟨0, 0, 1, false, none, some []⟩) ∧
    scanEmails env t₂ acc usr [m] npt false
        (S ++ [scanErrorRow acc usr t₁ ("Error in scanEmails: " ++ e)]) =
      (S ++ [scanErrorRow acc usr t₁ ("Error in scanEmails: " ++ e),
             scanErrorRow acc usr t₂ ("Error in scanEmails: " ++ e)],
        ⟨0, 0, 1, false, none, some []⟩) := by
  constructor
  · exact scanEmails_singleton_batch_throw env t₁ acc usr m npt S e body ratts
      hid hvalid hnorow₁ hfetch hbody hatts hfail hfresh₁
  · have := scanEmails_singleton_batch_throw env t₂ acc usr m npt
      (S ++ [scanErrorRow acc usr t₁ ("Error in scanEmails: " ++ e)]) e body ratts
      hid hvalid hnorow₂ hfetch hbody hatts hfail hfresh₂
    simpa [List.append_assoc] using this

theorem C10_witness :
    (¬(demoMessage.id = "")) ∧
    isValidGmailMessage demoMessage = true ∧
    hasAccMid [] "acc1" demoMessage.id = false ∧
    scanEmails (scanEnvOf demoMessage "demo body" (.error "db down")) 1
        "acc1" "u1" [demoMessage] none false [] =
      ([scanErrorRow "acc1" "u1" 1 ("Error in scanEmails: " ++ "db down")],
        ⟨0, 0, 1, false, none, some []⟩) ∧
    scanEmails (scanEnvOf demoMessage "demo body" (.error "db down")) 2
        "acc1" "u1" [demoMessage] none false
        [scanErrorRow "acc1" "u1" 1 ("Error in scanEmails: " ++ "db down")] =
      ([scanErrorRow "acc1" "u1" 1 ("Error in scanEmails: " ++ "db down"),
        scanErrorRow "acc1" "u1" 2 ("Error in scanEmails: " ++ "db down")],
        ⟨0, 0, 1, false, none, some []⟩) := by
  have h := C10_scan_error_row_not_idempotent
    (scanEnvOf demoMessage "demo body" (.error "db down")) 1 2 "acc1" "u1"
    demoMessage none [] "db down" "demo body" []
    (by decide) (by decide) rfl rfl rfl (fun items => rfl)
    (by decide) (by decide) (by decide) (by decide)
  exact ⟨by decide, by decide, by decide, by simpa using h.1, by simpa using h.2⟩

/-- C8: the claim is false on the code and the code contradicts its own
intent.  searchEmails builds the keyword clause and a `cleanQuery`, but (a)
the request actually issued to `gmail.users.messages.list` carries no `q`
field at all — it is the unrestricted mailbox listing, identical for every
`query` argument — and (b) even the built-but-dropped `cleanQuery` omits
the keyword clause (only the date/anywhere/exclusion parts are
interpolated into `fullQuery`). -/
theorem C8_search_request_unrestricted (query query₂ : String)
    (maxResults : Nat) (pageToken : Option String) (currentYear : Nat) :
    (searchEmailsRequest query maxResults pageToken).q = none ∧
    searchEmailsRequest query maxResults pageToken =
      searchEmailsRequest query₂ maxResults pageToken ∧
    searchEmailsCleanQuery currentYear =
      collapseWhitespace
        ("in:anywhere" ++ " " ++ searchEmailsDateSpec currentYear ++ " " ++
          searchEmailsExcludeUberEats) := by
  exact ⟨rfl, rfl, rfl⟩

theorem C4_witness :
    demoAmapSkip demoItem.id = some demoAnalysisSkip ∧
    jsTruthy demoAnalysisSkip.error = none ∧
    (demoAnalysisSkip.isInvoice = false ∨
      demoAnalysisSkip.confidence < confidenceThreshold) ∧
    scanItemStep 5 "acc1" "u1" demoAmapSkip [] demoItem = ([], ⟨0, 1, 0⟩) :=
  ⟨by decide, by decide, by decide,
    C4_amended_low_confidence_skipped 5 "acc1" "u1" demoAmapSkip [] demoItem
      demoAnalysisSkip (by decide) (by decide) (by decide)⟩

/-! ## Claim C2: second-scan idempotence

Run 1 leaves every message stub settled (`msgSettled`); a scan over a store
against which every stub is settled preserves the store length.  First the
key-monotonicity infrastructure. -/

theorem hasAccMid_imp_hasMid (s : Store) (a x : String)
    (h : hasAccMid s a x = true) : hasMid s x = true := by
  simp only [hasAccMid, List.any_eq_true, Bool.and_eq_true, decide_eq_true_eq] at h
  obtain ⟨r, hr, _, hx⟩ := h
  simp only [hasMid, List.any_eq_true, decide_eq_true_eq]
  exact ⟨r, hr, hx⟩

theorem hasMid_append_left (s : Store) (r : Invoice) (x : String)
    (h : hasMid s x = true) : hasMid (s ++ [r]) x = true := by
  simp only [hasMid, List.any_eq_true, decide_eq_true_eq] at h ⊢
  obtain ⟨y, hy, hx⟩ := h
  exact ⟨y, List.mem_append_left _ hy, hx⟩

theorem hasMid_append_self (s : Store) (r : Invoice) :
    hasMid (s ++ [r]) r.messageId = true := by
  simp only [hasMid, List.any_eq_true, decide_eq_true_eq]
  exact ⟨r, List.mem_append_right _ (List.mem_singleton.mpr rfl), rfl⟩

theorem primClosed_hasMid (x : String) :
    PrimClosed fun s => hasMid s x = true := by
  constructor
  · intro s s' r hp hc
    obtain ⟨rfl, -⟩ := prismaInvoiceCreate_eq_some s s' r hc
    exact hasMid_append_left s r x hp
  · intro s s' mid upd r hk hp hu
    unfold prismaInvoiceUpsert at hu
    by_cases hm : hasMid s mid = true
    · simp only [hm, if_true] at hu
      obtain rfl := Option.some.inj hu
      simp only [hasMid, List.any_eq_true, decide_eq_true_eq] at hp ⊢
      obtain ⟨y, hy, hx⟩ := hp
      refine ⟨if y.messageId = mid then upd y else y, List.mem_map_of_mem _ hy, ?_⟩
      by_cases hym : y.messageId = mid
      · rw [if_pos hym, (hk y).2]
        exact hx
      · rw [if_neg hym]
        exact hx
    · rw [Bool.not_eq_true] at hm
      simp only [hm, Bool.false_eq_true, if_false] at hu
      obtain ⟨rfl, -⟩ := prismaInvoiceCreate_eq_some s s' r hu
      exact hasMid_append_left s r x hp

theorem primClosed_hasAccMid (a x : String) :
    PrimClosed fun s => hasAccMid s a x = true := by
  constructor
  · intro s s' r hp hc
    obtain ⟨rfl, -⟩ := prismaInvoiceCreate_eq_some s s' r hc
    simp only [hasAccMid, List.any_eq_true, Bool.and_eq_true, decide_eq_true_eq] at hp ⊢
    obtain ⟨y, hy, hx⟩ := hp
    exact ⟨y, List.mem_append_left _ hy, hx⟩
  · intro s s' mid upd r hk hp hu
    unfold prismaInvoiceUpsert at hu
    by_cases hm : hasMid s mid = true
    · simp only [hm, if_true] at hu
      obtain rfl := Option.some.inj hu
      simp only [hasAccMid, List.any_eq_true, Bool.and_eq_true, decide_eq_true_eq] at hp ⊢
      obtain ⟨y, hy, hya, hyx⟩ := hp
      refine ⟨if y.messageId = mid then upd y else y, List.mem_map_of_mem _ hy, ?_, ?_⟩
      · by_cases hym : y.messageId = mid
        · rw [if_pos hym, (hk y).1]; exact hya
        · rw [if_neg hym]; exact hya
      · by_cases hym : y.messageId = mid
        · rw [if_pos hym, (hk y).2]; exact hyx
        · rw [if_neg hym]; exact hyx
    · rw [Bool.not_eq_true] at hm
      simp only [hm, Bool.false_eq_true, if_false] at hu
      obtain ⟨rfl, -⟩ := prismaInvoiceCreate_eq_some s s' r hu
      simp only [hasAccMid, List.any_eq_true, Bool.and_eq_true, decide_eq_true_eq] at hp ⊢
      obtain ⟨y, hy, hx⟩ := hp
      exact ⟨y, List.mem_append_left _ hy, hx⟩

theorem midLe_refl (s : Store) : midLe s s := fun _ h => h

theorem midLe_trans {s t u : Store} (h₁ : midLe s t) (h₂ : midLe t u) :
    midLe s u := fun x h => h₂ x (h₁ x h)

theorem prismaInvoiceUpsert_of_hasMid (s : Store) (mid : String)
    (upd : Invoice → Invoice) (r : Invoice) (h : hasMid s mid = true) :
    prismaInvoiceUpsert s mid upd r
      = some (s.map fun row => if row.messageId = mid then upd row else row) := by
  unfold prismaInvoiceUpsert
  rw [if_pos h]

theorem upsert_getD_len (s : Store) (mid : String) (upd : Invoice → Invoice)
    (r : Invoice) (h : hasMid s mid = true) :
    ((prismaInvoiceUpsert s mid upd r).getD s).length = s.length := by
  rw [prismaInvoiceUpsert_of_hasMid s mid upd r h]
  simp

theorem prismaInvoiceUpsert_keyed_isSome (s : Store) (mid : String)
    (upd : Invoice → Invoice) (r : Invoice) (hrm : r.messageId = mid) :
    ∃ s', prismaInvoiceUpsert s mid upd r = some s' := by
  unfold prismaInvoiceUpsert
  by_cases hm : hasMid s mid = true
  · rw [if_pos hm]
    exact ⟨_, rfl⟩
  · rw [Bool.not_eq_true] at hm
    simp only [hm, Bool.false_eq_true, if_false]
    have h1 : hasMid s r.messageId = false := by rw [hrm]; exact hm
    have h2 : hasAccMid s r.accountId r.messageId = false := by
      cases hacc : hasAccMid s r.accountId r.messageId with
      | false => rfl
      | true =>
        have hc := hasAccMid_imp_hasMid s r.accountId r.messageId hacc
        rw [hrm, hm] at hc
        simp at hc
    refine ⟨s ++ [r], ?_⟩
    unfold prismaInvoiceCreate
    rw [h1, h2]
    rfl

theorem prismaInvoiceUpsert_hasMid_post (s s' : Store) (mid : String)
    (upd : Invoice → Invoice) (r : Invoice) (hk : keysFixed upd)
    (hrm : r.messageId = mid) (hu : prismaInvoiceUpsert s mid upd r = some s') :
    hasMid s' mid = true := by
  by_cases hm : hasMid s mid = true
  · exact (primClosed_hasMid mid).upsert s s' mid upd r hk hm hu
  · rw [Bool.not_eq_true] at hm
    unfold prismaInvoiceUpsert at hu
    simp only [hm, Bool.false_eq_true, if_false] at hu
    obtain ⟨rfl, -⟩ := prismaInvoiceCreate_eq_some s s' r hu
    rw [← hrm]
    exact hasMid_append_self s r

theorem upsert_getD_hasMid_post (s : Store) (mid : String)
    (upd : Invoice → Invoice) (r : Invoice) (hk : keysFixed upd)
    (hrm : r.messageId = mid) :
    hasMid ((prismaInvoiceUpsert s mid upd r).getD s) mid = true := by
  obtain ⟨s', hu⟩ := prismaInvoiceUpsert_keyed_isSome s mid upd r hrm
  rw [hu]
  simpa using prismaInvoiceUpsert_hasMid_post s s' mid upd r hk hrm hu

theorem createInvoiceStep_fst_of_hasMid (s : Store) (row : Invoice)
    (h : hasMid s row.messageId = true) : (createInvoiceStep s row).1 = s := by
  unfold createInvoiceStep
  cases hc : prismaInvoiceCreate s row with
  | none => rfl
  | some s' =>
    obtain ⟨-, hfresh⟩ := prismaInvoiceCreate_eq_some s s' row hc
    rw [h] at hfresh
    simp at hfresh

theorem createInvoiceStep_hasMid (s : Store) (row : Invoice) :
    hasMid (createInvoiceStep s row).1 row.messageId = true := by
  unfold createInvoiceStep
  cases hc : prismaInvoiceCreate s row with
  | some s' =>
    obtain ⟨rfl, -⟩ := prismaInvoiceCreate_eq_some s s' row hc
    exact hasMid_append_self s row
  | none =>
    unfold prismaInvoiceCreate at hc
    by_cases hcc : (hasMid s row.messageId
        || hasAccMid s row.accountId row.messageId) = true
    · rw [Bool.or_eq_true] at hcc
      rcases hcc with h | h
      · exact h
      · exact hasAccMid_imp_hasMid s _ _ h
    · rw [if_neg hcc] at hc
      simp at hc

theorem errUpsertUpd_keysFixed (en : ErrEntry) (now : Nat) :
    keysFixed (errUpsertUpd en now) := fun _ => ⟨rfl, rfl⟩

theorem applyErrUpsertsGo_some (acc usr : String) (now : Nat) :
    ∀ (entries : List ErrEntry) (s : Store),
      ∃ s', applyErrUpsertsGo acc usr now s entries = some s' := by
  intro entries
  induction entries with
  | nil => intro s; exact ⟨s, rfl⟩
  | cons en rest ih =>
    intro s
    obtain ⟨s₁, hu⟩ := prismaInvoiceUpsert_keyed_isSome s en.messageId
      (errUpsertUpd en now) (errUpsertRow acc usr now en) rfl
    obtain ⟨s', hgo⟩ := ih s₁
    refine ⟨s', ?_⟩
    simp only [applyErrUpsertsGo, hu]
    exact hgo

theorem applyErrUpsertsGo_post (acc usr : String) (now : Nat) :
    ∀ (entries : List ErrEntry) (s s' : Store),
      applyErrUpsertsGo acc usr now s entries = some s' →
      ∀ en ∈ entries, hasMid s' en.messageId = true := by
  intro entries
  induction entries with
  | nil => intro s s' _ en hen; exact absurd hen (List.not_mem_nil en)
  | cons en₀ rest ih =>
    intro s s' h en hen
    simp only [applyErrUpsertsGo] at h
    cases hu : prismaInvoiceUpsert s en₀.messageId (errUpsertUpd en₀ now)
        (errUpsertRow acc usr now en₀) with
    | none => rw [hu] at h; exact absurd h (by simp)
    | some s₁ =>
      rw [hu] at h
      rcases List.mem_cons.mp hen with rfl | hrest
      · have h₁ : hasMid s₁ en.messageId = true :=
          prismaInvoiceUpsert_hasMid_post s s₁ en.messageId _ _
            (errUpsertUpd_keysFixed en now) rfl hu
        exact applyErrUpsertsGo_closed _ (primClosed_hasMid en.messageId)
          acc usr now rest s₁ s' h h₁
      · exact ih s₁ s' h en hrest

theorem applyErrUpsertsGo_len (acc usr : String) (now : Nat) :
    ∀ (entries : List ErrEntry) (s s' : Store),
      (∀ en ∈ entries, hasMid s en.messageId = true) →
      applyErrUpsertsGo acc usr now s entries = some s' →
      s'.length = s.length := by
  intro entries
  induction entries with
  | nil =>
    intro s s' _ h
    simp only [applyErrUpsertsGo, Option.some.injEq] at h
    rw [← h]
  | cons en rest ih =>
    intro s s' hall h
    have hm : hasMid s en.messageId = true := hall en (List.mem_cons_self en rest)
    simp only [applyErrUpsertsGo] at h
    cases hu : prismaInvoiceUpsert s en.messageId (errUpsertUpd en now)
        (errUpsertRow acc usr now en) with
    | none =>
      rw [prismaInvoiceUpsert_of_hasMid s en.messageId _ _ hm] at hu
      exact absurd hu (by simp)
    | some s₁ =>
      rw [hu] at h
      have hs₁ : s₁ = s.map fun row =>
          if row.messageId = en.messageId then errUpsertUpd en now row else row := by
        rw [prismaInvoiceUpsert_of_hasMid s en.messageId _ _ hm] at hu
        exact (Option.some.inj hu).symm
      have hrest : ∀ en₂ ∈ rest, hasMid s₁ en₂.messageId = true := by
        intro en₂ hen₂
        exact (primClosed_hasMid en₂.messageId).upsert s s₁ en.messageId _ _
          (errUpsertUpd_keysFixed en now) (hall en₂ (List.mem_cons_of_mem en hen₂)) hu
      have hlen := ih s₁ s' hrest h
      rw [hlen, hs₁, List.length_map]

theorem applyErrUpserts_len (acc usr : String) (now : Nat) (s : Store)
    (entries : List ErrEntry)
    (hall : ∀ en ∈ entries, hasMid s en.messageId = true) :
    (applyErrUpserts acc usr now s entries).length = s.length := by
  unfold applyErrUpserts
  split
  · rfl
  · obtain ⟨s', hgo⟩ := applyErrUpsertsGo_some acc usr now entries s
    rw [hgo]
    simpa using applyErrUpsertsGo_len acc usr now entries s s' hall hgo

theorem applyErrUpserts_post (acc usr : String) (now : Nat) (s : Store)
    (entries : List ErrEntry) (en : ErrEntry) (hen : en ∈ entries) :
    hasMid (applyErrUpserts acc usr now s entries) en.messageId = true := by
  unfold applyErrUpserts
  split
  · rename_i hemp
    cases entries with
    | nil => exact absurd hen (List.not_mem_nil en)
    | cons a l => simp at hemp
  · obtain ⟨s', hgo⟩ := applyErrUpsertsGo_some acc usr now entries s
    rw [hgo]
    simpa using applyErrUpsertsGo_post acc usr now entries s s' hgo en hen

theorem phase1_toProcess_mem (env : ScanEnv) (acc : String) (s : Store)
    (now : Nat) :
    ∀ (msgs : List GmailMessage) (full : GmailMessage),
      full ∈ (phase1 env acc false s now msgs).toProcess →
      ∃ m ∈ msgs, ¬(m.id = "") ∧ hasAccMid s acc m.id = false ∧
        env.getMessage m.id = .ok full := by
  intro msgs
  induction msgs with
  | nil => intro full h; simp [phase1] at h
  | cons m rest ih =>
    intro full h
    by_cases hid : m.id = ""
    · have h' : full ∈ (phase1 env acc false s now rest).toProcess := by
        simpa [phase1, hid] using h
      obtain ⟨m₂, hm₂, hp⟩ := ih full h'
      exact ⟨m₂, List.mem_cons_of_mem m hm₂, hp⟩
    · cases hacc : hasAccMid s acc m.id with
      | true =>
        have h' : full ∈ (phase1 env acc false s now rest).toProcess := by
          simpa [phase1, hid, hacc] using h
        obtain ⟨m₂, hm₂, hp⟩ := ih full h'
        exact ⟨m₂, List.mem_cons_of_mem m hm₂, hp⟩
      | false =>
        cases hg : env.getMessage m.id with
        | error e =>
          have h' : full ∈ (phase1 env acc false s now rest).toProcess := by
            simpa [phase1, hid, hacc, hg] using h
          obtain ⟨m₂, hm₂, hp⟩ := ih full h'
          exact ⟨m₂, List.mem_cons_of_mem m hm₂, hp⟩
        | ok fullm =>
          have h' : full = fullm ∨
              full ∈ (phase1 env acc false s now rest).toProcess := by
            simpa [phase1, hid, hacc, hg] using h
          rcases h' with rfl | h'
          · exact ⟨m, List.mem_cons_self m rest, hid, hacc, hg⟩
          · obtain ⟨m₂, hm₂, hp⟩ := ih full h'
            exact ⟨m₂, List.mem_cons_of_mem m hm₂, hp⟩

theorem phase1_errEntries_mem (env : ScanEnv) (acc : String) (s : Store)
    (now : Nat) :
    ∀ (msgs : List GmailMessage) (en : ErrEntry),
      en ∈ (phase1 env acc false s now msgs).errEntries →
      ∃ m ∈ msgs, ¬(m.id = "") ∧ hasAccMid s acc m.id = false ∧
        (∃ e, env.getMessage m.id = .error e) ∧ en.messageId = m.id := by
  intro msgs
  induction msgs with
  | nil => intro en h; simp [phase1] at h
  | cons m rest ih =>
    intro en h
    by_cases hid : m.id = ""
    · have h' : en ∈ (phase1 env acc false s now rest).errEntries := by
        simpa [phase1, hid] using h
      obtain ⟨m₂, hm₂, hp⟩ := ih en h'
      exact ⟨m₂, List.mem_cons_of_mem m hm₂, hp⟩
    · cases hacc : hasAccMid s acc m.id with
      | true =>
        have h' : en ∈ (phase1 env acc false s now rest).errEntries := by
          simpa [phase1, hid, hacc] using h
        obtain ⟨m₂, hm₂, hp⟩ := ih en h'
        exact ⟨m₂, List.mem_cons_of_mem m hm₂, hp⟩
      | false =>
        cases hg : env.getMessage m.id with
        | ok fullm =>
          have h' : en ∈ (phase1 env acc false s now rest).errEntries := by
            simpa [phase1, hid, hacc, hg] using h
          obtain ⟨m₂, hm₂, hp⟩ := ih en h'
          exact ⟨m₂, List.mem_cons_of_mem m hm₂, hp⟩
        | error e =>
          have h' : en = ⟨m.id, "Error processing batch: " ++ e, now⟩ ∨
              en ∈ (phase1 env acc false s now rest).errEntries := by
            simpa [phase1, hid, hacc, hg] using h
          rcases h' with rfl | h'
          · exact ⟨m, List.mem_cons_self m rest, hid, hacc, ⟨e, hg⟩, rfl⟩
          · obtain ⟨m₂, hm₂, hp⟩ := ih en h'
            exact ⟨m₂, List.mem_cons_of_mem m hm₂, hp⟩

theorem phase1_errEntries_cons_sub (env : ScanEnv) (acc : String) (s : Store)
    (now : Nat) (m : GmailMessage) (rest : List GmailMessage) (en : ErrEntry)
    (hen : en ∈ (phase1 env acc false s now rest).errEntries) :
    en ∈ (phase1 env acc false s now (m :: rest)).errEntries := by
  by_cases hid : m.id = ""
  · simpa [phase1, hid] using hen
  · cases hacc : hasAccMid s acc m.id with
    | true => simpa [phase1, hid, hacc] using hen
    | false =>
      cases hg : env.getMessage m.id with
      | ok fullm => simpa [phase1, hid, hacc, hg] using hen
      | error e =>
        simp only [phase1, hid, hacc, hg]
        simp [hid, List.mem_cons]
        exact Or.inr hen

theorem phase1_toProcess_cons_sub (env : ScanEnv) (acc : String) (s : Store)
    (now : Nat) (m : GmailMessage) (rest : List GmailMessage)
    (full : GmailMessage)
    (hmem : full ∈ (phase1 env acc false s now rest).toProcess) :
    full ∈ (phase1 env acc false s now (m :: rest)).toProcess := by
  by_cases hid : m.id = ""
  · simpa [phase1, hid] using hmem
  · cases hacc : hasAccMid s acc m.id with
    | true => simpa [phase1, hid, hacc] using hmem
    | false =>
      cases hg : env.getMessage m.id with
      | error e => simpa [phase1, hid, hacc, hg] using hmem
      | ok fullm =>
        simp only [phase1, hid, hacc, hg]
        simp [hid, List.mem_cons]
        exact Or.inr hmem

theorem phase1_cover (env : ScanEnv) (acc : String) (s : Store) (now : Nat) :
    ∀ (msgs : List GmailMessage) (m : GmailMessage), m ∈ msgs →
      m.id = "" ∨ hasAccMid s acc m.id = true ∨
      (∃ e, env.getMessage m.id = .error e ∧
        (⟨m.id, "Error processing batch: " ++ e, now⟩ : ErrEntry)
          ∈ (phase1 env acc false s now msgs).errEntries) ∨
      (∃ full, env.getMessage m.id = .ok full ∧
        full ∈ (phase1 env acc false s now msgs).toProcess) := by
  intro msgs
  induction msgs with
  | nil => intro m hm; exact absurd hm (List.not_mem_nil m)
  | cons m₀ rest ih =>
    intro m hm
    rcases List.mem_cons.mp hm with rfl | hm'
    · by_cases hid : m.id = ""
      · exact Or.inl hid
      · cases hacc : hasAccMid s acc m.id with
        | true => exact Or.inr (Or.inl rfl)
        | false =>
          cases hg : env.getMessage m.id with
          | error e =>
            refine Or.inr (Or.inr (Or.inl ⟨e, rfl, ?_⟩))
            simp only [phase1, hid, hacc, hg]
            simp [hid]
          | ok fullm =>
            refine Or.inr (Or.inr (Or.inr ⟨fullm, rfl, ?_⟩))
            simp only [phase1, hid, hacc, hg]
            simp [hid]
    · rcases ih m hm' with h | h | ⟨e, hg, hen⟩ | ⟨full, hg, hmem⟩
      · exact Or.inl h
      · exact Or.inr (Or.inl h)
      · exact Or.inr (Or.inr (Or.inl
          ⟨e, hg, phase1_errEntries_cons_sub env acc s now m₀ rest _ hen⟩))
      · exact Or.inr (Or.inr (Or.inr
          ⟨full, hg, phase1_toProcess_cons_sub env acc s now m₀ rest full hmem⟩))

theorem chunksOfGo_subset {α : Type} (n : Nat) :
    ∀ (fuel : Nat) (l c : List α), c ∈ chunksOfGo n fuel l →
      ∀ x ∈ c, x ∈ l := by
  intro fuel
  induction fuel with
  | zero =>
    intro l c hc
    cases l with
    | nil => simp [chunksOfGo] at hc
    | cons y ys => simp [chunksOfGo] at hc
  | succ fuel ih =>
    intro l c hc x hx
    cases l with
    | nil => simp [chunksOfGo] at hc
    | cons y ys =>
      simp only [chunksOfGo] at hc
      rcases List.mem_cons.mp hc with rfl | hc'
      · rcases List.mem_cons.mp hx with rfl | hx'
        · exact List.mem_cons_self _ _
        · exact List.mem_cons_of_mem y (List.take_subset _ _ hx')
      · exact List.mem_cons_of_mem y
          (List.drop_subset _ _ (ih (ys.drop (n - 1)) c hc' x hx))

theorem chunksOf_subset {α : Type} (n : Nat) (l c : List α)
    (hc : c ∈ chunksOf n l) (x : α) (hx : x ∈ c) : x ∈ l :=
  chunksOfGo_subset n l.length l c hc x hx

theorem chunksOfGo_cover {α : Type} (n : Nat) :
    ∀ (fuel : Nat) (l : List α), l.length ≤ fuel →
      ∀ x ∈ l, ∃ c ∈ chunksOfGo n fuel l, x ∈ c := by
  intro fuel
  induction fuel with
  | zero =>
    intro l hl x hx
    cases l with
    | nil => exact absurd hx (List.not_mem_nil x)
    | cons a l => simp at hl
  | succ fuel ih =>
    intro l hl x hx
    cases l with
    | nil => exact absurd hx (List.not_mem_nil x)
    | cons y ys =>
      simp only [chunksOfGo]
      rcases List.mem_cons.mp hx with rfl | hx'
      · exact ⟨x :: ys.take (n - 1), List.mem_cons_self _ _,
          List.mem_cons_self _ _⟩
      · have hx2 : x ∈ ys.take (n - 1) ++ ys.drop (n - 1) := by
          rw [List.take_append_drop]
          exact hx'
        rcases List.mem_append.mp hx2 with ht | hd
        · exact ⟨y :: ys.take (n - 1), List.mem_cons_self _ _,
            List.mem_cons_of_mem y ht⟩
        · have hys : ys.length ≤ fuel := by
            simp only [List.length_cons] at hl
            omega
          have hlen : (ys.drop (n - 1)).length ≤ fuel := by
            rw [List.length_drop]
            omega
          obtain ⟨c, hc, hxc⟩ := ih (ys.drop (n - 1)) hlen x hd
          exact ⟨c, List.mem_cons_of_mem _ hc, hxc⟩

theorem chunksOf_cover {α : Type} (n : Nat) (l : List α) (x : α) (hx : x ∈ l) :
    ∃ c ∈ chunksOf n l, x ∈ c :=
  chunksOfGo_cover n l.length l (Nat.le_refl _) x hx

theorem isValid_id_ne (m : GmailMessage) (h : isValidGmailMessage m = true) :
    ¬(m.id = "") := by
  intro hcon
  unfold isValidGmailMessage at h
  rw [hcon] at h
  simp at h

theorem itemTry_id (env : ScanEnv) (m : GmailMessage) (it : ScanItem)
    (h : itemTry env m = some it) : it.id = m.id := by
  cases hb : env.getMessageBody m with
  | error e => simp [itemTry, hb] at h
  | ok body =>
    cases ha : env.getAttachments m with
    | error e => simp [itemTry, hb, ha] at h
    | ok ratts =>
      simp only [itemTry, hb, ha, Option.some.injEq] at h
      rw [← h]

theorem fetchScanItem_item (env : ScanEnv) (now : Nat) (acc usr : String)
    (s : Store) (m : GmailMessage) :
    (fetchScanItem env now acc usr s m).2.2 = itemTry env m := by
  unfold fetchScanItem itemTry
  cases env.getMessageBody m with
  | error e => rfl
  | ok body =>
    cases env.getAttachments m with
    | error e => rfl
    | ok ratts => rfl

theorem fetchScanItemFail_entry (env : ScanEnv) (now : Nat) (acc usr : String)
    (s : Store) (m : GmailMessage) (e : String) :
    (fetchScanItemFail env now acc usr s m e).2.1 =
      some ⟨jsDefault m.id "unknown",
        "Error processing message " ++ m.id ++ ": " ++ e, now⟩ := rfl

theorem fetchScanItem_entry_mem (env : ScanEnv) (now : Nat) (acc usr : String)
    (s : Store) (m : GmailMessage) (en : ErrEntry)
    (hen : en ∈ (fetchScanItem env now acc usr s m).2.1.toList) :
    itemTry env m = none ∧ en.messageId = jsDefault m.id "unknown" := by
  unfold fetchScanItem at hen
  cases hb : env.getMessageBody m with
  | ok body =>
    rw [hb] at hen
    cases ha : env.getAttachments m with
    | ok ratts =>
      rw [ha] at hen
      simp at hen
    | error e =>
      rw [ha] at hen
      rw [fetchScanItemFail_entry] at hen
      simp only [Option.toList_some, List.mem_singleton] at hen
      subst hen
      exact ⟨by simp [itemTry, hb, ha], rfl⟩
  | error e =>
    rw [hb] at hen
    rw [fetchScanItemFail_entry] at hen
    simp only [Option.toList_some, List.mem_singleton] at hen
    subst hen
    exact ⟨by simp [itemTry, hb], rfl⟩

theorem fetchScanItemFail_post (env : ScanEnv) (now : Nat) (acc usr : String)
    (s : Store) (m : GmailMessage) (e : String) (hne : ¬(m.id = "")) :
    hasMid (fetchScanItemFail env now acc usr s m e).1 m.id = true := by
  simp only [fetchScanItemFail]
  exact upsert_getD_hasMid_post s m.id _ _ (fun _ => ⟨rfl, rfl⟩) (by simp [hne])

theorem fetchScanItemFail_len (env : ScanEnv) (now : Nat) (acc usr : String)
    (s : Store) (m : GmailMessage) (e : String)
    (hm : hasMid s m.id = true) :
    (fetchScanItemFail env now acc usr s m e).1.length = s.length := by
  simp only [fetchScanItemFail]
  exact upsert_getD_len s m.id _ _ hm

theorem fetchScanItem_fail_post (env : ScanEnv) (now : Nat) (acc usr : String)
    (s : Store) (m : GmailMessage) (hne : ¬(m.id = ""))
    (hnone : itemTry env m = none) :
    hasMid (fetchScanItem env now acc usr s m).1 m.id = true := by
  unfold fetchScanItem
  cases hb : env.getMessageBody m with
  | error e => exact fetchScanItemFail_post env now acc usr s m e hne
  | ok body =>
    cases ha : env.getAttachments m with
    | error e => exact fetchScanItemFail_post env now acc usr s m e hne
    | ok ratts =>
      exfalso
      simp [itemTry, hb, ha] at hnone

theorem fetchScanItem_len2 (env : ScanEnv) (now : Nat) (acc usr : String)
    (s : Store) (m : GmailMessage)
    (hset : itemTry env m = none → hasMid s m.id = true) :
    (fetchScanItem env now acc usr s m).1.length = s.length := by
  unfold fetchScanItem
  cases hb : env.getMessageBody m with
  | error e =>
    exact fetchScanItemFail_len env now acc usr s m e
      (hset (by simp [itemTry, hb]))
  | ok body =>
    cases ha : env.getAttachments m with
    | error e =>
      exact fetchScanItemFail_len env now acc usr s m e
        (hset (by simp [itemTry, hb, ha]))
    | ok ratts => rfl

theorem fetchChunk_items (env : ScanEnv) (now : Nat) (acc usr : String) :
    ∀ (batch : List GmailMessage) (s : Store),
      (fetchChunk env now acc usr s batch).2.2
        = batch.filterMap fun m => itemTry env m := by
  intro batch
  induction batch with
  | nil => intro s; rfl
  | cons m rest ih =>
    intro s
    rcases hfs : fetchScanItem env now acc usr s m with ⟨s₁, entry, item⟩
    have hitem : item = itemTry env m := by
      have h := fetchScanItem_item env now acc usr s m
      rw [hfs] at h
      exact h
    rcases hfc : fetchChunk env now acc usr s₁ rest with ⟨s₂, entries, items⟩
    have hitems : items = rest.filterMap fun m => itemTry env m := by
      have h := ih s₁
      rw [hfc] at h
      exact h
    simp only [fetchChunk, hfs, hfc, List.filterMap_cons]
    rw [← hitem, ← hitems]
    cases item with
    | none => simp
    | some it => simp

theorem fetchChunk_entries_mem (env : ScanEnv) (now : Nat) (acc usr : String) :
    ∀ (batch : List GmailMessage) (s : Store) (en : ErrEntry),
      en ∈ (fetchChunk env now acc usr s batch).2.1 →
      ∃ m ∈ batch, itemTry env m = none ∧
        en.messageId = jsDefault m.id "unknown" := by
  intro batch
  induction batch with
  | nil => intro s en hen; simp [fetchChunk] at hen
  | cons m rest ih =>
    intro s en hen
    rcases hfs : fetchScanItem env now acc usr s m with ⟨s₁, entry, item⟩
    rcases hfc : fetchChunk env now acc usr s₁ rest with ⟨s₂, entries, items⟩
    simp only [fetchChunk, hfs, hfc] at hen
    rcases List.mem_append.mp hen with hl | hr
    · have h := fetchScanItem_entry_mem env now acc usr s m en
        (by rw [hfs]; exact hl)
      exact ⟨m, List.mem_cons_self _ _, h⟩
    · obtain ⟨m₂, hm₂, hp⟩ := ih s₁ en (by rw [hfc]; exact hr)
      exact ⟨m₂, List.mem_cons_of_mem _ hm₂, hp⟩

theorem fetchChunk_post (env : ScanEnv) (now : Nat) (acc usr : String) :
    ∀ (batch : List GmailMessage) (s : Store) (m : GmailMessage),
      m ∈ batch → ¬(m.id = "") → itemTry env m = none →
      hasMid (fetchChunk env now acc usr s batch).1 m.id = true := by
  intro batch
  induction batch with
  | nil => intro s m hm; exact absurd hm (List.not_mem_nil m)
  | cons m₀ rest ih =>
    intro s m hm hid hnone
    rcases hfs : fetchScanItem env now acc usr s m₀ with ⟨s₁, entry, item⟩
    rcases hfc : fetchChunk env now acc usr s₁ rest with ⟨s₂, es, its⟩
    rcases List.mem_cons.mp hm with rfl | hm'
    · have h₁ : hasMid s₁ m.id = true := by
        have h := fetchScanItem_fail_post env now acc usr s m hid hnone
        rw [hfs] at h
        exact h
      have h₂ := fetchChunk_store _ (primClosed_hasMid m.id) env now acc usr
        rest s₁ h₁
      rw [hfc] at h₂
      simpa [fetchChunk, hfs, hfc] using h₂
    · have h' := ih s₁ m hm' hid hnone
      rw [hfc] at h'
      simpa [fetchChunk, hfs, hfc] using h'

theorem fetchChunk_len2 (env : ScanEnv) (now : Nat) (acc usr : String) :
    ∀ (batch : List GmailMessage) (s₀ s : Store),
      (∀ m ∈ batch, itemTry env m = none → hasMid s₀ m.id = true) →
      midLe s₀ s →
      (fetchChunk env now acc usr s batch).1.length = s.length ∧
        midLe s₀ (fetchChunk env now acc usr s batch).1 := by
  intro batch
  induction batch with
  | nil => intro s₀ s _ hle; exact ⟨rfl, hle⟩
  | cons m rest ih =>
    intro s₀ s hset hle
    rcases hfs : fetchScanItem env now acc usr s m with ⟨s₁, entry, item⟩
    have hlen₁ : s₁.length = s.length := by
      have h := fetchScanItem_len2 env now acc usr s m
        (fun hit => hle _ (hset m (List.mem_cons_self _ _) hit))
      rw [hfs] at h
      exact h
    have hle₁ : midLe s₀ s₁ := by
      intro x hx
      have h := fetchScanItem_store _ (primClosed_hasMid x) env now acc usr
        s m (hle x hx)
      rw [hfs] at h
      exact h
    rcases hfc : fetchChunk env now acc usr s₁ rest with ⟨s₂, entries, items⟩
    obtain ⟨hlen₂, hle₂⟩ := ih s₀ s₁
      (fun m₂ hm₂ => hset m₂ (List.mem_cons_of_mem _ hm₂)) hle₁
    rw [hfc] at hlen₂ hle₂
    have hlen₂b : s₂.length = s₁.length := hlen₂
    have hle₂b : midLe s₀ s₂ := hle₂
    constructor
    · simp only [fetchChunk, hfs, hfc]
      rw [hlen₂b, hlen₁]
    · simp only [fetchChunk, hfs, hfc]
      exact hle₂b

theorem find?_map_items :
    ∀ (items : List ScanItem),
      (∀ a ∈ items, ∀ b ∈ items, a.id = b.id → a = b) →
      ∀ it ∈ items,
        (items.map shItem).find? (fun x => x.id = it.id) = some (shItem it) := by
  intro items
  induction items with
  | nil => intro _ it hit; exact absurd hit (List.not_mem_nil it)
  | cons j rest ih =>
    intro huniq it hit
    simp only [List.map_cons]
    by_cases hj : (shItem j).id = it.id
    · rw [List.find?_cons_of_pos _ (by simp [hj])]
      have hji : j = it :=
        huniq j (List.mem_cons_self _ _) it hit (by simpa [shItem] using hj)
      rw [hji]
    · rw [List.find?_cons_of_neg _ (by simp [hj])]
      have hit' : it ∈ rest := by
        rcases List.mem_cons.mp hit with rfl | h
        · exact absurd ((by simp [shItem] : (shItem it).id = it.id)) hj
        · exact h
      exact ih (fun a ha b hb =>
        huniq a (List.mem_cons_of_mem _ ha) b (List.mem_cons_of_mem _ hb)) it hit'

theorem chunkAmap_eq (f : BatchEmailItem → Option InvoiceData)
    (items : List ScanItem)
    (huniq : ∀ a ∈ items, ∀ b ∈ items, a.id = b.id → a = b)
    (it : ScanItem) (hit : it ∈ items) :
    chunkAmap f items it.id = f (shItem it) := by
  unfold chunkAmap
  rw [find?_map_items items huniq it hit]
  rfl

theorem scanItemStep_fst_of_hasMid (now : Nat) (acc usr : String)
    (amap : String → Option InvoiceData) (s : Store) (item : ScanItem)
    (hmid : hasMid s item.id = true) :
    (scanItemStep now acc usr amap s item).1 = s := by
  unfold scanItemStep
  split
  · rfl
  · split
    · rfl
    · split
      · rfl
      · split
        · rfl
        · exact createInvoiceStep_fst_of_hasMid s _ hmid

theorem scanItemStep_fst_none (now : Nat) (acc usr : String)
    (amap : String → Option InvoiceData) (s : Store) (item : ScanItem)
    (ham : amap item.id = none) :
    (scanItemStep now acc usr amap s item).1 = s := by
  simp [scanItemStep, ham]

theorem scanItemStep_fst_skip (now : Nat) (acc usr : String)
    (amap : String → Option InvoiceData) (s : Store) (item : ScanItem)
    (a : InvoiceData) (ham : amap item.id = some a)
    (hskip : (jsTruthy a.error).isSome = true ∨ a.isInvoice = false ∨
      a.confidence < confidenceThreshold) :
    (scanItemStep now acc usr amap s item).1 = s := by
  simp only [scanItemStep, ham]
  by_cases he : (jsTruthy a.error).isSome = true
  · rw [if_pos he]
  · rw [if_neg he]
    cases hi : a.isInvoice with
    | false => rw [if_pos (by simp [hi])]
    | true =>
      rw [if_neg (by simp [hi])]
      by_cases hc : a.confidence < confidenceThreshold
      · rw [if_pos hc]
      · rw [if_neg hc]
        rcases hskip with h | h | h
        · exact absurd h he
        · rw [hi] at h; simp at h
        · exact absurd h hc

theorem scanItemStep_post (now : Nat) (acc usr : String)
    (amap : String → Option InvoiceData) (s : Store) (item : ScanItem)
    (a : InvoiceData) (ham : amap item.id = some a)
    (hne : ¬((jsTruthy a.error).isSome = true)) (hinv : a.isInvoice = true)
    (hconf : ¬(a.confidence < confidenceThreshold)) :
    hasMid (scanItemStep now acc usr amap s item).1 item.id = true := by
  simp only [scanItemStep, ham]
  rw [if_neg hne, if_neg (by simp [hinv]), if_neg hconf]
  exact createInvoiceStep_hasMid s _

theorem runItems_fst_eq (now : Nat) (acc usr : String)
    (amap : String → Option InvoiceData) :
    ∀ (items : List ScanItem) (s : Store) (c : ScanCounts),
      (∀ it ∈ items, hasMid s it.id = true ∨
        match amap it.id with
        | none => True
        | some a => (jsTruthy a.error).isSome = true ∨ a.isInvoice = false ∨
            a.confidence < confidenceThreshold) →
      (runItems now acc usr amap s c items).1 = s := by
  intro items
  induction items with
  | nil => intro s c _; rfl
  | cons it rest ih =>
    intro s c hall
    have h1 : (scanItemStep now acc usr amap s it).1 = s := by
      rcases hall it (List.mem_cons_self _ _) with hmid | hsk
      · exact scanItemStep_fst_of_hasMid now acc usr amap s it hmid
      · cases ham : amap it.id with
        | none => exact scanItemStep_fst_none now acc usr amap s it ham
        | some a =>
          rw [ham] at hsk
          have hsk' : (jsTruthy a.error).isSome = true ∨ a.isInvoice = false ∨
              a.confidence < confidenceThreshold := hsk
          exact scanItemStep_fst_skip now acc usr amap s it a ham hsk'
    rcases hs : scanItemStep now acc usr amap s it with ⟨s₁, inc⟩
    have hs₁ : s₁ = s := by rw [hs] at h1; exact h1
    subst hs₁
    simp only [runItems, hs]
    exact ih s₁ _ (fun it₂ hit₂ => hall it₂ (List.mem_cons_of_mem _ hit₂))

theorem runItems_post (now : Nat) (acc usr : String)
    (amap : String → Option InvoiceData) :
    ∀ (items : List ScanItem) (s : Store) (c : ScanCounts) (it : ScanItem),
      it ∈ items → ∀ a, amap it.id = some a →
      ¬((jsTruthy a.error).isSome = true) → a.isInvoice = true →
      ¬(a.confidence < confidenceThreshold) →
      hasMid (runItems now acc usr amap s c items).1 it.id = true := by
  intro items
  induction items with
  | nil => intro s c it hit; exact absurd hit (List.not_mem_nil it)
  | cons j rest ih =>
    intro s c it hit a ham hne hinv hconf
    rcases hs : scanItemStep now acc usr amap s j with ⟨s₁, inc⟩
    simp only [runItems, hs]
    rcases List.mem_cons.mp hit with rfl | hrest
    · have h1 : hasMid s₁ it.id = true := by
        have h := scanItemStep_post now acc usr amap s it a ham hne hinv hconf
        rw [hs] at h
        exact h
      exact runItems_store _ (primClosed_hasMid it.id) now acc usr amap rest
        s₁ _ h1
    · exact ih s₁ _ it hrest a ham hne hinv hconf

theorem items_unique (env : ScanEnv) (now : Nat) (acc usr : String)
    (chunk : List GmailMessage) (s : Store)
    (hcan : ∀ m ∈ chunk, env.getMessage m.id = .ok m)
    {s₁ : Store} {entries : List ErrEntry} {items : List ScanItem}
    (hfc : fetchChunk env now acc usr s (chunk.filter isValidGmailMessage)
      = (s₁, entries, items)) :
    (items = (chunk.filter isValidGmailMessage).filterMap
        fun m => itemTry env m) ∧
      ∀ a ∈ items, ∀ a₂ ∈ items, a.id = a₂.id → a = a₂ := by
  have hitems : items = (chunk.filter isValidGmailMessage).filterMap
      fun m => itemTry env m := by
    have h := fetchChunk_items env now acc usr
      (chunk.filter isValidGmailMessage) s
    rw [hfc] at h
    exact h
  refine ⟨hitems, ?_⟩
  intro a ha a₂ ha₂ hab
  rw [hitems] at ha ha₂
  obtain ⟨m₁, hm₁, hi₁⟩ := List.mem_filterMap.mp ha
  obtain ⟨m₂, hm₂, hi₂⟩ := List.mem_filterMap.mp ha₂
  have hid₁ := itemTry_id env m₁ a hi₁
  have hid₂ := itemTry_id env m₂ a₂ hi₂
  have hmm : m₁ = m₂ := by
    have hc₂ := hcan m₂ (List.mem_of_mem_filter hm₂)
    have hok : (Except.ok m₁ : Except String GmailMessage) = .ok m₂ := by
      rw [← hcan m₁ (List.mem_of_mem_filter hm₁), ← hid₁, hab, hid₂]
      exact hc₂
    exact Except.ok.inj hok
  rw [hmm] at hi₁
  exact Option.some.inj (hi₁.symm.trans hi₂)

theorem processChunk_out (env : ScanEnv) (f : BatchEmailItem → Option InvoiceData)
    (now : Nat) (acc usr : String) (b : BatchAcc) (chunk : List GmailMessage)
    (henv : env.analyzeBatch = perItemAnalyze f) :
    ∃ b', processChunk env now acc usr b chunk = .done b' ∧
      ∃ ext, b'.errEntries = b.errEntries ++ ext := by
  rcases hfc : fetchChunk env now acc usr b.store
      (chunk.filter isValidGmailMessage) with ⟨s₁, entries, items⟩
  by_cases hemp : items.isEmpty = true
  · refine ⟨⟨s₁, ⟨b.counts.processed, b.counts.skipped,
        b.counts.errors + entries.length⟩, b.errEntries ++ entries⟩,
      ?_, entries, rfl⟩
    simp only [processChunk, hfc]
    rw [if_pos hemp]
  · refine ⟨⟨(runItems now acc usr (chunkAmap f items) s₁
        ⟨b.counts.processed, b.counts.skipped,
          b.counts.errors + entries.length⟩ items).1,
      (runItems now acc usr (chunkAmap f items) s₁
        ⟨b.counts.processed, b.counts.skipped,
          b.counts.errors + entries.length⟩ items).2,
      b.errEntries ++ entries⟩, ?_, entries, rfl⟩
    simp only [processChunk, hfc]
    rw [if_neg hemp, henv]
    rfl

theorem processChunk_post (env : ScanEnv) (f : BatchEmailItem → Option InvoiceData)
    (now : Nat) (acc usr : String) (b : BatchAcc) (chunk : List GmailMessage)
    (henv : env.analyzeBatch = perItemAnalyze f)
    (hcan : ∀ m₂ ∈ chunk, env.getMessage m₂.id = .ok m₂)
    (m : GmailMessage) (hm : m ∈ chunk) :
    ∃ b', processChunk env now acc usr b chunk = .done b' ∧
      fullSettled env f b'.store m ∧
      ∃ ext, b'.errEntries = b.errEntries ++ ext := by
  rcases hfc : fetchChunk env now acc usr b.store
      (chunk.filter isValidGmailMessage) with ⟨s₁, entries, items⟩
  obtain ⟨hitems, huniq⟩ := items_unique env now acc usr chunk b.store hcan hfc
  by_cases hemp : items.isEmpty = true
  · refine ⟨⟨s₁, ⟨b.counts.processed, b.counts.skipped,
        b.counts.errors + entries.length⟩, b.errEntries ++ entries⟩,
      ?_, ?_, entries, rfl⟩
    · simp only [processChunk, hfc]
      rw [if_pos hemp]
    · unfold fullSettled
      cases hval : isValidGmailMessage m with
      | false => exact Or.inl rfl
      | true =>
        refine Or.inr ?_
        have hmb : m ∈ chunk.filter isValidGmailMessage :=
          List.mem_filter.mpr ⟨hm, hval⟩
        cases hit : itemTry env m with
        | none =>
          have h := fetchChunk_post env now acc usr
            (chunk.filter isValidGmailMessage) b.store m hmb
            (isValid_id_ne m hval) hit
          rw [hfc] at h
          exact h
        | some it =>
          exfalso
          have hmem : it ∈ items := by
            rw [hitems]
            exact List.mem_filterMap.mpr ⟨m, hmb, hit⟩
          cases items with
          | nil => exact absurd hmem (List.not_mem_nil it)
          | cons a l => simp at hemp
  · refine ⟨⟨(runItems now acc usr (chunkAmap f items) s₁
        ⟨b.counts.processed, b.counts.skipped,
          b.counts.errors + entries.length⟩ items).1,
      (runItems now acc usr (chunkAmap f items) s₁
        ⟨b.counts.processed, b.counts.skipped,
          b.counts.errors + entries.length⟩ items).2,
      b.errEntries ++ entries⟩, ?_, ?_, entries, rfl⟩
    · simp only [processChunk, hfc]
      rw [if_neg hemp, henv]
      rfl
    · unfold fullSettled
      cases hval : isValidGmailMessage m with
      | false => exact Or.inl rfl
      | true =>
        refine Or.inr ?_
        have hmb : m ∈ chunk.filter isValidGmailMessage :=
          List.mem_filter.mpr ⟨hm, hval⟩
        cases hit : itemTry env m with
        | none =>
          have h₁ : hasMid s₁ m.id = true := by
            have h := fetchChunk_post env now acc usr
              (chunk.filter isValidGmailMessage) b.store m hmb
              (isValid_id_ne m hval) hit
            rw [hfc] at h
            exact h
          exact runItems_store _ (primClosed_hasMid m.id) now acc usr
            (chunkAmap f items) items s₁ _ h₁
        | some it =>
          have hmem : it ∈ items := by
            rw [hitems]
            exact List.mem_filterMap.mpr ⟨m, hmb, hit⟩
          have hamap : chunkAmap f items it.id = f (shItem it) :=
            chunkAmap_eq f items huniq it hmem
          have hid : it.id = m.id := itemTry_id env m it hit
          have hres : match f (shItem it) with
              | none => True
              | some a => (jsTruthy a.error).isSome = true ∨
                  a.isInvoice = false ∨
                  a.confidence < confidenceThreshold ∨
                  hasMid (runItems now acc usr (chunkAmap f items) s₁
                    ⟨b.counts.processed, b.counts.skipped,
                      b.counts.errors + entries.length⟩ items).1 m.id = true := by
            cases hf : f (shItem it) with
            | none => exact True.intro
            | some a =>
              by_cases herr : (jsTruthy a.error).isSome = true
              · exact Or.inl herr
              · cases hbi : a.isInvoice with
                | false => exact Or.inr (Or.inl hbi)
                | true =>
                  by_cases hconf : a.confidence < confidenceThreshold
                  · exact Or.inr (Or.inr (Or.inl hconf))
                  · refine Or.inr (Or.inr (Or.inr ?_))
                    rw [← hid]
                    exact runItems_post now acc usr (chunkAmap f items) items
                      s₁ _ it hmem a (hamap.trans hf) herr hbi hconf
          exact hres

theorem processChunk_len2 (env : ScanEnv) (f : BatchEmailItem → Option InvoiceData)
    (now : Nat) (acc usr : String) (s₀ : Store) (b : BatchAcc)
    (chunk : List GmailMessage)
    (henv : env.analyzeBatch = perItemAnalyze f)
    (hcan : ∀ m ∈ chunk, env.getMessage m.id = .ok m)
    (hset : ∀ m ∈ chunk, fullSettled env f s₀ m)
    (hle : midLe s₀ b.store) :
    ∃ b', processChunk env now acc usr b chunk = .done b' ∧
      b'.store.length = b.store.length ∧ midLe s₀ b'.store ∧
      ∃ ext, b'.errEntries = b.errEntries ++ ext ∧
        ∀ en ∈ ext, hasMid s₀ en.messageId = true := by
  rcases hfc : fetchChunk env now acc usr b.store
      (chunk.filter isValidGmailMessage) with ⟨s₁, entries, items⟩
  obtain ⟨hitems, huniq⟩ := items_unique env now acc usr chunk b.store hcan hfc
  have hbset : ∀ m ∈ chunk.filter isValidGmailMessage,
      itemTry env m = none → hasMid s₀ m.id = true := by
    intro m hmb hnone
    have hval := (List.mem_filter.mp hmb).2
    have hfs := hset m (List.mem_of_mem_filter hmb)
    unfold fullSettled at hfs
    rcases hfs with h | h
    · rw [hval] at h; simp at h
    · rw [hnone] at h
      exact h
  have hlen₁ : s₁.length = b.store.length ∧ midLe s₀ s₁ := by
    have h := fetchChunk_len2 env now acc usr (chunk.filter isValidGmailMessage)
      s₀ b.store hbset hle
    rw [hfc] at h
    exact h
  have hents : ∀ en ∈ entries, hasMid s₀ en.messageId = true := by
    intro en hen
    obtain ⟨m, hmb, hnone, hmid⟩ := fetchChunk_entries_mem env now acc usr
      (chunk.filter isValidGmailMessage) b.store en (by rw [hfc]; exact hen)
    have hval := (List.mem_filter.mp hmb).2
    rw [hmid]
    simp only [jsDefault, if_neg (isValid_id_ne m hval)]
    exact hbset m hmb hnone
  by_cases hemp : items.isEmpty = true
  · exact ⟨⟨s₁, ⟨b.counts.processed, b.counts.skipped,
        b.counts.errors + entries.length⟩, b.errEntries ++ entries⟩,
      by simp only [processChunk, hfc]; rw [if_pos hemp],
      hlen₁.1, hlen₁.2, entries, rfl, hents⟩
  · have hall : ∀ it ∈ items, hasMid s₁ it.id = true ∨
        match chunkAmap f items it.id with
        | none => True
        | some a => (jsTruthy a.error).isSome = true ∨ a.isInvoice = false ∨
            a.confidence < confidenceThreshold := by
      intro it hit
      have hmem := hit
      rw [hitems] at hmem
      obtain ⟨m, hmb, hi⟩ := List.mem_filterMap.mp hmem
      have hval := (List.mem_filter.mp hmb).2
      have hid := itemTry_id env m it hi
      have hfs := hset m (List.mem_of_mem_filter hmb)
      unfold fullSettled at hfs
      rcases hfs with h | h
      · rw [hval] at h; simp at h
      · rw [hi] at h
        have hmm : match f (shItem it) with
            | none => True
            | some a => (jsTruthy a.error).isSome = true ∨ a.isInvoice = false ∨
                a.confidence < confidenceThreshold ∨ hasMid s₀ m.id = true := h
        rw [chunkAmap_eq f items huniq it hit]
        cases hf : f (shItem it) with
        | none => exact Or.inr True.intro
        | some a =>
          rw [hf] at hmm
          have h₂ : (jsTruthy a.error).isSome = true ∨ a.isInvoice = false ∨
              a.confidence < confidenceThreshold ∨ hasMid s₀ m.id = true := hmm
          rcases h₂ with hx | hx | hx | hx
          · exact Or.inr (Or.inl hx)
          · exact Or.inr (Or.inr (Or.inl hx))
          · exact Or.inr (Or.inr (Or.inr hx))
          · refine Or.inl ?_
            rw [hid]
            exact hlen₁.2 _ hx
    have hR := runItems_fst_eq now acc usr (chunkAmap f items) items s₁
      ⟨b.counts.processed, b.counts.skipped,
        b.counts.errors + entries.length⟩ hall
    refine ⟨⟨(runItems now acc usr (chunkAmap f items) s₁
        ⟨b.counts.processed, b.counts.skipped,
          b.counts.errors + entries.length⟩ items).1,
      (runItems now acc usr (chunkAmap f items) s₁
        ⟨b.counts.processed, b.counts.skipped,
          b.counts.errors + entries.length⟩ items).2,
      b.errEntries ++ entries⟩, ?_, ?_, ?_, entries, rfl, hents⟩
    · simp only [processChunk, hfc]
      rw [if_neg hemp, henv]
      rfl
    · rw [hR]
      exact hlen₁.1
    · rw [hR]
      exact hlen₁.2

theorem fullSettled_mono (env : ScanEnv) (f : BatchEmailItem → Option InvoiceData)
    {s t : Store} (hle : midLe s t) (m : GmailMessage)
    (h : fullSettled env f s m) : fullSettled env f t m := by
  unfold fullSettled at h ⊢
  rcases h with h | h
  · exact Or.inl h
  · refine Or.inr ?_
    cases hit : itemTry env m with
    | none =>
      rw [hit] at h
      have h₂ : hasMid s m.id = true := h
      exact hle _ h₂
    | some it =>
      rw [hit] at h
      have hmm : match f (shItem it) with
          | none => True
          | some a => (jsTruthy a.error).isSome = true ∨ a.isInvoice = false ∨
              a.confidence < confidenceThreshold ∨ hasMid s m.id = true := h
      show match f (shItem it) with
        | none => True
        | some a => (jsTruthy a.error).isSome = true ∨ a.isInvoice = false ∨
            a.confidence < confidenceThreshold ∨ hasMid t m.id = true
      cases hf : f (shItem it) with
      | none => exact True.intro
      | some a =>
        rw [hf] at hmm
        have h₂ : (jsTruthy a.error).isSome = true ∨ a.isInvoice = false ∨
            a.confidence < confidenceThreshold ∨ hasMid s m.id = true := hmm
        rcases h₂ with hx | hx | hx | hx
        · exact Or.inl hx
        · exact Or.inr (Or.inl hx)
        · exact Or.inr (Or.inr (Or.inl hx))
        · exact Or.inr (Or.inr (Or.inr (hle _ hx)))

theorem batchLoop_done (env : ScanEnv) (f : BatchEmailItem → Option InvoiceData)
    (now : Nat) (acc usr : String)
    (henv : env.analyzeBatch = perItemAnalyze f) :
    ∀ (chunks : List (List GmailMessage)) (b : BatchAcc),
      ∃ b', batchLoop env now acc usr b chunks = .done b' ∧
        ∃ ext, b'.errEntries = b.errEntries ++ ext := by
  intro chunks
  induction chunks with
  | nil => intro b; exact ⟨b, rfl, [], by simp⟩
  | cons c rest ih =>
    intro b
    obtain ⟨b₁, hpc, ext₁, hext₁⟩ := processChunk_out env f now acc usr b c henv
    obtain ⟨b₂, hbl, ext₂, hext₂⟩ := ih b₁
    refine ⟨b₂, ?_, ext₁ ++ ext₂, ?_⟩
    · simp only [batchLoop, hpc]
      exact hbl
    · rw [hext₂, hext₁, List.append_assoc]

theorem batchLoop_post (env : ScanEnv) (f : BatchEmailItem → Option InvoiceData)
    (now : Nat) (acc usr : String)
    (henv : env.analyzeBatch = perItemAnalyze f) :
    ∀ (chunks : List (List GmailMessage)) (b : BatchAcc),
      (∀ c ∈ chunks, ∀ m ∈ c, env.getMessage m.id = .ok m) →
      ∀ c ∈ chunks, ∀ m ∈ c,
        ∃ b', batchLoop env now acc usr b chunks = .done b' ∧
          fullSettled env f b'.store m := by
  intro chunks
  induction chunks with
  | nil => intro b _ c hc; exact absurd hc (List.not_mem_nil c)
  | cons c₀ rest ih =>
    intro b hcan c hc m hm
    rcases List.mem_cons.mp hc with rfl | hc'
    · obtain ⟨b₁, hpc, hfs, -⟩ := processChunk_post env f now acc usr b c henv
        (hcan c (List.mem_cons_self _ _)) m hm
      obtain ⟨b₂, hbl, -⟩ := batchLoop_done env f now acc usr henv rest b₁
      refine ⟨b₂, ?_, ?_⟩
      · simp only [batchLoop, hpc]
        exact hbl
      · refine fullSettled_mono env f ?_ m hfs
        intro x hx
        have h := batchLoop_store _ (primClosed_hasMid x) env now acc usr
          rest b₁ hx
        rw [hbl] at h
        exact h
    · obtain ⟨b₁, hpc, -⟩ := processChunk_out env f now acc usr b c₀ henv
      obtain ⟨b₂, hbl, hfs⟩ := ih b₁
        (fun c₂ hc₂ => hcan c₂ (List.mem_cons_of_mem _ hc₂)) c hc' m hm
      refine ⟨b₂, ?_, hfs⟩
      simp only [batchLoop, hpc]
      exact hbl

theorem batchLoop_len2 (env : ScanEnv) (f : BatchEmailItem → Option InvoiceData)
    (now : Nat) (acc usr : String) (s₀ : Store)
    (henv : env.analyzeBatch = perItemAnalyze f) :
    ∀ (chunks : List (List GmailMessage)) (b : BatchAcc),
      (∀ c ∈ chunks, ∀ m ∈ c, env.getMessage m.id = .ok m) →
      (∀ c ∈ chunks, ∀ m ∈ c, fullSettled env f s₀ m) →
      midLe s₀ b.store →
      ∃ b', batchLoop env now acc usr b chunks = .done b' ∧
        b'.store.length = b.store.length ∧ midLe s₀ b'.store ∧
        ∃ ext, b'.errEntries = b.errEntries ++ ext ∧
          ∀ en ∈ ext, hasMid s₀ en.messageId = true := by
  intro chunks
  induction chunks with
  | nil =>
    intro b _ _ hle
    exact ⟨b, rfl, rfl, hle, [], by simp, by intro en hen; simp at hen⟩
  | cons c rest ih =>
    intro b hcan hset hle
    obtain ⟨b₁, hpc, hlen₁, hle₁, ext₁, hext₁, hm₁⟩ :=
      processChunk_len2 env f now acc usr s₀ b c henv
        (hcan c (List.mem_cons_self _ _)) (hset c (List.mem_cons_self _ _)) hle
    obtain ⟨b₂, hbl, hlen₂, hle₂, ext₂, hext₂, hm₂⟩ := ih b₁
      (fun c₂ hc₂ => hcan c₂ (List.mem_cons_of_mem _ hc₂))
      (fun c₂ hc₂ => hset c₂ (List.mem_cons_of_mem _ hc₂)) hle₁
    refine ⟨b₂, ?_, by rw [hlen₂, hlen₁], hle₂, ext₁ ++ ext₂, ?_, ?_⟩
    · simp only [batchLoop, hpc]
      exact hbl
    · rw [hext₂, hext₁, List.append_assoc]
    · intro en hen
      rcases List.mem_append.mp hen with h | h
      · exact hm₁ en h
      · exact hm₂ en h

theorem scanEmails_eq_run (env : ScanEnv) (now : Nat) (acc usr : String)
    (msgs : List GmailMessage) (npt : Option String) (force : Bool)
    (store : Store) (hne : msgs.isEmpty = false) :
    scanEmails env now acc usr msgs npt force store
      = scanEmailsRun env now acc usr npt store
          (phase1 env acc force store now msgs) := by
  unfold scanEmails
  rw [if_neg (by simp [hne])]

theorem scanEmailsRun_entry_post (env : ScanEnv)
    (f : BatchEmailItem → Option InvoiceData) (now : Nat) (acc usr : String)
    (npt : Option String) (store : Store) (p1 : Phase1Out)
    (henv : env.analyzeBatch = perItemAnalyze f)
    (en : ErrEntry) (hen : en ∈ p1.errEntries) :
    hasMid (scanEmailsRun env now acc usr npt store p1).1 en.messageId = true := by
  unfold scanEmailsRun
  by_cases hemp : p1.toProcess.isEmpty = true
  · rw [if_pos hemp]
    unfold scanEmailsFinish
    exact applyErrUpserts_post acc usr now store p1.errEntries en hen
  · rw [if_neg hemp]
    obtain ⟨b', hb', ext, hext⟩ := batchLoop_done env f now acc usr henv
      (chunksOf 5 p1.toProcess) ⟨store, ⟨0, p1.skipped, p1.errors⟩, p1.errEntries⟩
    rw [hb']
    show hasMid (scanEmailsFinish acc usr now npt b').1 en.messageId = true
    unfold scanEmailsFinish
    refine applyErrUpserts_post acc usr now b'.store b'.errEntries en ?_
    rw [hext]
    exact List.mem_append_left _ hen

theorem scanEmailsRun_full_post (env : ScanEnv)
    (f : BatchEmailItem → Option InvoiceData) (now : Nat) (acc usr : String)
    (npt : Option String) (store : Store) (p1 : Phase1Out)
    (henv : env.analyzeBatch = perItemAnalyze f)
    (hcanall : ∀ full ∈ p1.toProcess, env.getMessage full.id = .ok full)
    (full : GmailMessage) (hmem : full ∈ p1.toProcess) :
    fullSettled env f (scanEmailsRun env now acc usr npt store p1).1 full := by
  unfold scanEmailsRun
  have hemp : ¬(p1.toProcess.isEmpty = true) := by
    cases hpt : p1.toProcess with
    | nil => rw [hpt] at hmem; exact absurd hmem (List.not_mem_nil full)
    | cons a l => simp
  rw [if_neg hemp]
  obtain ⟨c, hc, hfc⟩ := chunksOf_cover 5 p1.toProcess full hmem
  obtain ⟨b', hb', hfs⟩ := batchLoop_post env f now acc usr henv
    (chunksOf 5 p1.toProcess) ⟨store, ⟨0, p1.skipped, p1.errors⟩, p1.errEntries⟩
    (fun c₂ hc₂ m₂ hm₂ =>
      hcanall m₂ (chunksOf_subset 5 p1.toProcess c₂ hc₂ m₂ hm₂))
    c hc full hfc
  rw [hb']
  show fullSettled env f (scanEmailsFinish acc usr now npt b').1 full
  unfold scanEmailsFinish
  refine fullSettled_mono env f ?_ full hfs
  intro x hx
  exact applyErrUpserts_store _ (primClosed_hasMid x) acc usr now b'.store
    b'.errEntries hx

theorem scanEmails_post (env : ScanEnv)
    (f : BatchEmailItem → Option InvoiceData) (now : Nat) (acc usr : String)
    (msgs : List GmailMessage) (npt : Option String) (store : Store)
    (henv : env.analyzeBatch = perItemAnalyze f)
    (hfull : ∀ i m, env.getMessage i = .ok m → m.id = i) :
    ∀ m ∈ msgs, msgSettled env f acc
      (scanEmails env now acc usr msgs npt false store).1 m := by
  intro m hm
  unfold msgSettled
  by_cases hid : m.id = ""
  · exact Or.inl hid
  by_cases hacc0 : hasAccMid store acc m.id = true
  · exact Or.inr (Or.inl (scanEmails_store _ (primClosed_hasAccMid acc m.id)
      env now acc usr msgs npt false store hacc0))
  have hne : msgs.isEmpty = false := by
    cases msgs with
    | nil => exact absurd hm (List.not_mem_nil m)
    | cons a l => rfl
  rcases phase1_cover env acc store now msgs m hm
    with hid2 | hacc2 | ⟨e, hg, hent⟩ | ⟨full, hg, hmem⟩
  · exact absurd hid2 hid
  · exact absurd hacc2 hacc0
  · refine Or.inr (Or.inr ?_)
    rw [hg]
    show hasMid (scanEmails env now acc usr msgs npt false store).1 m.id = true
    rw [scanEmails_eq_run env now acc usr msgs npt false store hne]
    exact scanEmailsRun_entry_post env f now acc usr npt store
      (phase1 env acc false store now msgs) henv
      ⟨m.id, "Error processing batch: " ++ e, now⟩ hent
  · refine Or.inr (Or.inr ?_)
    rw [hg]
    show fullSettled env f (scanEmails env now acc usr msgs npt false store).1 full
    rw [scanEmails_eq_run env now acc usr msgs npt false store hne]
    refine scanEmailsRun_full_post env f now acc usr npt store
      (phase1 env acc false store now msgs) henv ?_ full hmem
    intro full₂ hf₂
    obtain ⟨m₂, hm₂, _, _, hg₂⟩ :=
      phase1_toProcess_mem env acc store now msgs full₂ hf₂
    rw [hfull m₂.id full₂ hg₂]
    exact hg₂

theorem scanEmails_len2 (env : ScanEnv)
    (f : BatchEmailItem → Option InvoiceData) (now : Nat) (acc usr : String)
    (msgs : List GmailMessage) (npt : Option String) (s : Store)
    (henv : env.analyzeBatch = perItemAnalyze f)
    (hfull : ∀ i m, env.getMessage i = .ok m → m.id = i)
    (hset : ∀ m ∈ msgs, msgSettled env f acc s m) :
    (scanEmails env now acc usr msgs npt false s).1.length = s.length := by
  cases hne : msgs.isEmpty with
  | true =>
    unfold scanEmails
    rw [if_pos hne]
  | false =>
    rw [scanEmails_eq_run env now acc usr msgs npt false s hne]
    have hents : ∀ en ∈ (phase1 env acc false s now msgs).errEntries,
        hasMid s en.messageId = true := by
      intro en hen
      obtain ⟨m, hm, hid, hacc, ⟨e, hg⟩, hmid⟩ :=
        phase1_errEntries_mem env acc s now msgs en hen
      have hms := hset m hm
      unfold msgSettled at hms
      rcases hms with h | h | h
      · exact absurd h hid
      · rw [h] at hacc; simp at hacc
      · rw [hg] at h
        have h₂ : hasMid s m.id = true := h
        rw [hmid]
        exact h₂
    have hfulls : ∀ full ∈ (phase1 env acc false s now msgs).toProcess,
        fullSettled env f s full := by
      intro full hfl
      obtain ⟨m, hm, hid, hacc, hg⟩ :=
        phase1_toProcess_mem env acc s now msgs full hfl
      have hms := hset m hm
      unfold msgSettled at hms
      rcases hms with h | h | h
      · exact absurd h hid
      · rw [h] at hacc; simp at hacc
      · rw [hg] at h
        exact h
    have hcans : ∀ full ∈ (phase1 env acc false s now msgs).toProcess,
        env.getMessage full.id = .ok full := by
      intro full hfl
      obtain ⟨m, hm, _, _, hg⟩ :=
        phase1_toProcess_mem env acc s now msgs full hfl
      rw [hfull m.id full hg]
      exact hg
    unfold scanEmailsRun
    by_cases hemp : (phase1 env acc false s now msgs).toProcess.isEmpty = true
    · rw [if_pos hemp]
      unfold scanEmailsFinish
      exact applyErrUpserts_len acc usr now s _ hents
    · rw [if_neg hemp]
      obtain ⟨b', hb', hlen, hle, ext, hext, hexthm⟩ :=
        batchLoop_len2 env f now acc usr s henv
          (chunksOf 5 (phase1 env acc false s now msgs).toProcess)
          ⟨s, ⟨0, (phase1 env acc false s now msgs).skipped,
            (phase1 env acc false s now msgs).errors⟩,
            (phase1 env acc false s now msgs).errEntries⟩
          (fun c hc m hm => hcans m (chunksOf_subset 5 _ c hc m hm))
          (fun c hc m hm => hfulls m (chunksOf_subset 5 _ c hc m hm))
          (midLe_refl s)
      rw [hb']
      show (scanEmailsFinish acc usr now npt b').1.length = s.length
      unfold scanEmailsFinish
      have hall : ∀ en ∈ b'.errEntries, hasMid b'.store en.messageId = true := by
        intro en hen
        rw [hext] at hen
        rcases List.mem_append.mp hen with h | h
        · exact hle _ (hents en h)
        · exact hle _ (hexthm en h)
      rw [applyErrUpserts_len acc usr now b'.store b'.errEntries hall]
      exact hlen

/-- **C2** (confirmed, for a deterministic environment): running the same
scan again immediately after a completed first run with forceRescan=false
creates zero additional Invoice records — the second run leaves the store
length unchanged.  The environment is deterministic: the provider returns
the message carrying the requested id, and the extraction service never
throws and judges each item by a fixed per-item function.  Every candidate
of the second run is either skipped by the (account, message-id) existence
check, re-fetched into an error upsert that updates the existing row,
re-classified to a skip, or re-created into the uniqueness constraint. -/
theorem C2_second_scan_creates_no_records
    (env : ScanEnv) (f : BatchEmailItem → Option InvoiceData)
    (now₁ now₂ : Nat) (acc usr : String) (msgs : List GmailMessage)
    (npt : Option String) (store : Store)
    (henv : env.analyzeBatch = perItemAnalyze f)
    (hfull : ∀ i m, env.getMessage i = .ok m → m.id = i) :
    (scanEmails env now₂ acc usr msgs npt false
        (scanEmails env now₁ acc usr msgs npt false store).1).1.length
      = (scanEmails env now₁ acc usr msgs npt false store).1.length :=
  scanEmails_len2 env f now₂ acc usr msgs npt
    (scanEmails env now₁ acc usr msgs npt false store).1 henv hfull
    (scanEmails_post env f now₁ acc usr msgs npt store henv hfull)

/-- C2 witness: a concrete one-message mailbox scanned twice over the
empty store; the second scan adds nothing. -/
theorem C2_witness :
    (scanEmails c2Env 1 "a1" "u1" [c2Msg] none false
        (scanEmails c2Env 0 "a1" "u1" [c2Msg] none false []).1).1.length
      = (scanEmails c2Env 0 "a1" "u1" [c2Msg] none false []).1.length :=
  C2_second_scan_creates_no_records c2Env (fun _ => some demoAnalysisOK)
    0 1 "a1" "u1" [c2Msg] none [] rfl
    (fun i m h => by injection h with h₂; rw [← h₂])

end InvoiceTracker
